import Mathlib

/-!
Shallow embedding of the gradient-output wrapper (`nequip/nn/_grad_output.py`)
and the streaming metrics engine (`nequip/train/metrics.py`) of the nequip
repository, together with theorems settling the spec claims about them.

Tensors are modelled as flat lists of rationals carrying a shape and the
autograd `requires_grad` flag; Python dictionaries are association lists with
in-place-update semantics (replace the first binding, else append).  The
reverse-mode differentiation engine and the `torch_runstats` RunningStats
collaborator are external to the repository and are modelled as oracles /
input-recording state machines, following the spec's interface descriptions.
-/

namespace NequipSpec

/-- A tensor: a shape, the flattened (row-major) rational entries, and the
autograd tracking flag `requires_grad`. -/
structure Tensor where
  shape : List ℕ
  vals : List ℚ
  requiresGrad : Bool
deriving Repr, DecidableEq

/-- `sign * grad` — elementwise scalar multiplication of a tensor. -/
def Tensor.scale (c : ℚ) (t : Tensor) : Tensor :=
  { t with vals := t.vals.map (fun v => c * v) }

/-- `tensor.flatten()` — collapse to one dimension. -/
def Tensor.flatten (t : Tensor) : Tensor :=
  { t with shape := [t.shape.prod] }

/-- Python dictionary with string keys, as an association list. -/
abbrev DictT (α : Type) := List (String × α)

/-- A data dictionary mapping field names to tensors. -/
abbrev Dict := DictT Tensor

/-- `d[k]` lookup (first binding wins; dictionaries never hold duplicates). -/
def lookupD {α : Type} : DictT α → String → Option α
  | [], _ => none
  | (k', v) :: rest, k => if k' = k then some v else lookupD rest k

/-- `d[k] = v` — replace the binding for `k` in place, else append it. -/
def insertD {α : Type} : DictT α → String → α → DictT α
  | [], k, v => [(k, v)]
  | (k', v') :: rest, k, v =>
    if k' = k then (k, v) :: rest else (k', v') :: insertD rest k v

/-- `d.pop(k)` — remove the binding for `k`. -/
def eraseD {α : Type} : DictT α → String → DictT α
  | [], _ => []
  | (k', v') :: rest, k => if k' = k then rest else (k', v') :: eraseD rest k

theorem lookupD_insertD_self {α : Type} (d : DictT α) (k : String) (v : α) :
    lookupD (insertD d k v) k = some v := by
  induction d with
  | nil => simp [insertD, lookupD]
  | cons hd tl ih =>
    obtain ⟨k', v'⟩ := hd
    by_cases h : k' = k <;> simp [insertD, lookupD, h, ih]

theorem lookupD_insertD_ne {α : Type} (d : DictT α) (k k' : String) (v : α)
    (h : k ≠ k') : lookupD (insertD d k v) k' = lookupD d k' := by
  induction d with
  | nil => simp [insertD, lookupD, h]
  | cons hd tl ih =>
    obtain ⟨k0, v0⟩ := hd
    by_cases h0 : k0 = k
    · subst h0; simp [insertD, lookupD, h]
    · simp only [insertD, if_neg h0, lookupD]
      by_cases h1 : k0 = k' <;> simp [h1, ih]

theorem lookupD_insertD_isSome {α : Type} (d : DictT α) (k k' : String) (v : α)
    (h : (lookupD d k').isSome) : (lookupD (insertD d k v) k').isSome := by
  by_cases hk : k = k'
  · subst hk; simp [lookupD_insertD_self]
  · rwa [lookupD_insertD_ne _ _ _ _ hk]

/-! ### Field-name vocabulary

Modelled from the spec: the `AtomicDataDict` key constants live in
`nequip/data`, which is not among the provided source files; the spec fixes
the stable domain vocabulary `"positions"`, `"total_energy"`, `"force"`,
`"species_index"` for these fields. -/

/-- Modelled from the spec: `AtomicDataDict.TOTAL_ENERGY_KEY`. -/
def TOTAL_ENERGY_KEY : String := "total_energy"

/-- Modelled from the spec: `AtomicDataDict.POSITIONS_KEY`. -/
def POSITIONS_KEY : String := "positions"

/-- Modelled from the spec: `AtomicDataDict.FORCE_KEY`. -/
def FORCE_KEY : String := "force"

/-- Modelled from the spec: `AtomicDataDict.SPECIES_INDEX_KEY`. -/
def SPECIES_INDEX_KEY : String := "species_index"

/-! ### The gradient-output wrapper (`nequip/nn/_grad_output.py`) -/

/-- A wrapped model (`GraphModuleMixin`): a function on data dictionaries
together with its declared input/output type signature (irreps, abstracted
as strings such as `"0e"` or `"1o"`). -/
structure GraphModule where
  run : Dict → Dict
  irreps_in : DictT String
  irreps_out : DictT String

/-- Construction-time failures of the wrapper.  The spec's taxonomy names the
`sign` assertion `InvalidConfiguration` and the `wrt`/`out_field` length
assertion `ConfigurationMismatch`; `missingKey` models the Python `KeyError`
raised by `self.irreps_in[wrt]` for an undeclared `wrt` field. -/
inductive ConfigError
  | invalidConfiguration
  | configurationMismatch
  | missingKey
deriving Repr, DecidableEq

/-- Forward-time failures: `gradientUnavailable` is the `RuntimeError` raised
when `torch.autograd.grad` returns `None` for a requested field; `missingKey`
models a Python `KeyError` on a dictionary access. -/
inductive FwdError
  | gradientUnavailable
  | missingKey
deriving Repr, DecidableEq

/-- The state of a constructed `GradientOutput` wrapper. -/
structure GradientOutput where
  func : GraphModule
  of : String
  wrt : List String
  out_field : List String
  sign : ℚ
  irreps_in : DictT String
  irreps_out : DictT String

/-- Normalize the Python `Union[str, List[str]]` arguments: a bare string
becomes a one-element list. -/
def normalizeStrList : Sum String (List String) → List String
  | .inl s => [s]
  | .inr l => l

/-- `GradientOutput.__init__`.  Steps, in source order: coerce and assert
`sign ∈ {1.0, -1.0}`; normalize `wrt` and `out_field`; default `out_field` to
`"d(of)/d(wrt_i)"` names, else assert its length matches `wrt`; set up the
type signature and add, for each `(out_field_i, wrt_i)` pair, the declared
input type of `wrt_i` as the declared output type of `out_field_i`.

The `_init_irreps` helper is `GraphModuleMixin` code not among the provided
sources; modelled from the spec: "The output type signature is computed by
copying the wrapped model's output type", and the input signature is the
wrapped model's input signature. -/
def GradientOutput.make (func : GraphModule) (of : String)
    (wrt : Sum String (List String)) (out_field : Option (Sum String (List String)))
    (sign : ℚ) : Except ConfigError GradientOutput :=
  if sign = 1 ∨ sign = -1 then
    let wrtL := normalizeStrList wrt
    let outL : Except ConfigError (List String) :=
      match out_field with
      | none => .ok (wrtL.map (fun e => "d(" ++ of ++ ")/d(" ++ e ++ ")"))
      | some o =>
        let l := normalizeStrList o
        if l.length = wrtL.length then .ok l else .error .configurationMismatch
    match outL with
    | .error e => .error e
    | .ok outs =>
      match wrtL.mapM (fun k => lookupD func.irreps_in k) with
      | none => .error .missingKey
      | some wrtIrreps =>
        .ok { func := func
              of := of
              wrt := wrtL
              out_field := outs
              sign := sign
              irreps_in := func.irreps_in
              irreps_out :=
                (outs.zip wrtIrreps).foldl (fun d p => insertD d p.1 p.2)
                  func.irreps_out }
  else .error .invalidConfiguration

/-- The black-box reverse-mode differentiation engine
(`torch.autograd.grad`): given the wrapped model's output dictionary (which
carries the scalar `of` field whose sum is differentiated, along with its
computation graph), the `wrt` tensors, and the `create_graph` flag, it
returns one optional gradient per `wrt` tensor (`None` when no gradient
flowed). -/
abbrev GradEngine := Dict → List Tensor → Bool → List (Option Tensor)

/-- The first loop of `GradientOutput.forward`: for each `wrt` key, record
the current `requires_grad` flag, force it to `True`, and collect the (now
tracking) tensor.  Returns the mutated dictionary, the recorded flags, the
collected tensors, and whether every key was present (a missing key is a
Python `KeyError`, leaving earlier mutations in place). -/
def setReqGradPhase : Dict → List String → Dict × List Bool × List Tensor × Bool
  | d, [] => (d, [], [], true)
  | d, k :: ks =>
    match lookupD d k with
    | none => (d, [], [], false)
    | some t =>
      let t' : Tensor := { t with requiresGrad := true }
      let step := setReqGradPhase (insertD d k t') ks
      (step.1, t.requiresGrad :: step.2.1, t' :: step.2.2.1, step.2.2.2)

/-- The gradient-storing loop of `GradientOutput.forward` over
`zip(out_field, grads)`: a `None` gradient raises (returning the dictionary
mutated so far and `false`); otherwise `data[out] = sign * grad`. -/
def storeGradsPhase (sign : ℚ) : Dict → List (String × Option Tensor) → Dict × Bool
  | d, [] => (d, true)
  | d, (_, none) :: _ => (d, false)
  | d, (out, some g) :: rest => storeGradsPhase sign (insertD d out (Tensor.scale sign g)) rest

/-- The final loop of `GradientOutput.forward` over
`zip(old_requires_grad, wrt)`: restore each recorded flag
(`data[k].requires_grad_(req_grad)`); a missing key is a `KeyError`. -/
def restorePhase : Dict → List (Bool × String) → Dict × Bool
  | d, [] => (d, true)
  | d, (b, k) :: rest =>
    match lookupD d k with
    | none => (d, false)
    | some t => restorePhase (insertD d k { t with requiresGrad := b }) rest

/-- `GradientOutput.forward`.  Mirrors the source exactly: force the `wrt`
flags while recording the old ones; run the wrapped model; differentiate the
sum of the `of` field w.r.t. the collected tensors with
`create_graph = self.training`; store `sign * grad` per `out_field`, raising
`GradientUnavailable` on a `None` gradient; restore the recorded flags; and
return.  There is no `try/finally`, so an error exits immediately with the
dictionary as mutated so far. -/
def GradientOutput.forward (g : GradientOutput) (engine : GradEngine)
    (training : Bool) (data : Dict) : Dict × Option FwdError :=
  let s := setReqGradPhase data g.wrt
  if s.2.2.2 then
    let d2 := g.func.run s.1
    match lookupD d2 g.of with
    | none => (d2, some .missingKey)
    | some _ =>
      let grads := engine d2 s.2.2.1 training
      let st := storeGradsPhase g.sign d2 (g.out_field.zip grads)
      if st.2 then
        let r := restorePhase st.1 (s.2.1.zip g.wrt)
        if r.2 then (r.1, none) else (r.1, some .missingKey)
      else (st.1, some .gradientUnavailable)
  else (s.1, some .missingKey)

/-- `ForceOutput(energy_model)` — the convenience constructor fixing
`of = TOTAL_ENERGY_KEY`, `wrt = POSITIONS_KEY`, `out_field = FORCE_KEY`,
`sign = -1`. -/
def ForceOutput (energy_model : GraphModule) : Except ConfigError GradientOutput :=
  GradientOutput.make energy_model TOTAL_ENERGY_KEY (.inl POSITIONS_KEY)
    (some (.inl FORCE_KEY)) (-1)

/-- The numeric content of a tensor, ignoring the autograd tracking flag. -/
def Tensor.content (t : Tensor) : List ℕ × List ℚ := (t.shape, t.vals)

/-- Forcing the tracking flag keeps a tensor's numeric content. -/
def Tensor.setTrue (t : Tensor) : Tensor := { t with requiresGrad := true }

theorem exists_mem_zip_left {α β : Type} {l1 : List α} {l2 : List β} {b : β}
    (hlen : l1.length = l2.length) (hb : b ∈ l2) : ∃ a, (a, b) ∈ l1.zip l2 := by
  induction l2 generalizing l1 with
  | nil => cases hb
  | cons hd tl ih =>
    match l1 with
    | [] => simp at hlen
    | a :: l1' =>
      rcases List.mem_cons.mp hb with h | h
      · exact ⟨a, by simp [h]⟩
      · obtain ⟨a', ha'⟩ := ih (by simpa using hlen) h
        exact ⟨a', List.mem_cons_of_mem _ ha'⟩

theorem setReqGradPhase_ok (d : Dict) (ws : List String)
    (hpres : ∀ k ∈ ws, (lookupD d k).isSome) :
    (setReqGradPhase d ws).2.2.2 = true := by
  induction ws generalizing d with
  | nil => simp [setReqGradPhase]
  | cons k ks ih =>
    obtain ⟨t, ht⟩ := Option.isSome_iff_exists.mp (hpres k (List.mem_cons_self k ks))
    simp only [setReqGradPhase, ht]
    exact ih _ (fun k' hk' =>
      lookupD_insertD_isSome _ _ _ _ (hpres k' (List.mem_cons_of_mem _ hk')))

theorem setReqGradPhase_olds_length (d : Dict) (ws : List String)
    (hpres : ∀ k ∈ ws, (lookupD d k).isSome) :
    (setReqGradPhase d ws).2.1.length = ws.length := by
  induction ws generalizing d with
  | nil => simp [setReqGradPhase]
  | cons k ks ih =>
    obtain ⟨t, ht⟩ := Option.isSome_iff_exists.mp (hpres k (List.mem_cons_self k ks))
    simp only [setReqGradPhase, ht, List.length_cons]
    rw [ih]
    intro k' hk'
    exact lookupD_insertD_isSome _ _ _ _ (hpres k' (List.mem_cons_of_mem _ hk'))

theorem setReqGradPhase_lookup_notin (d : Dict) (ws : List String) (k' : String)
    (hk' : k' ∉ ws) : lookupD (setReqGradPhase d ws).1 k' = lookupD d k' := by
  induction ws generalizing d with
  | nil => simp [setReqGradPhase]
  | cons k ks ih =>
    cases ht : lookupD d k with
    | none => simp [setReqGradPhase, ht]
    | some t =>
      simp only [setReqGradPhase, ht]
      rw [ih _ (fun h => hk' (List.mem_cons_of_mem _ h))]
      exact lookupD_insertD_ne _ _ _ _ (fun h => hk' (h ▸ List.mem_cons_self k ks))

theorem setReqGradPhase_lookup_mem (d : Dict) (ws : List String)
    (hpres : ∀ k ∈ ws, (lookupD d k).isSome) :
    ∀ k' ∈ ws, lookupD (setReqGradPhase d ws).1 k' = (lookupD d k').map Tensor.setTrue := by
  induction ws generalizing d with
  | nil => intro k' h; cases h
  | cons k ks ih =>
    intro k' hk'
    obtain ⟨t, ht⟩ := Option.isSome_iff_exists.mp (hpres k (List.mem_cons_self k ks))
    simp only [setReqGradPhase, ht]
    have hpres' : ∀ x ∈ ks,
        (lookupD (insertD d k { t with requiresGrad := true }) x).isSome :=
      fun x hx => lookupD_insertD_isSome _ _ _ _ (hpres x (List.mem_cons_of_mem _ hx))
    by_cases hkk : k' ∈ ks
    · rw [ih _ hpres' k' hkk]
      by_cases he : k = k'
      · subst he
        rw [lookupD_insertD_self, ht]
        simp [Tensor.setTrue]
      · rw [lookupD_insertD_ne _ _ _ _ he]
    · have he : k = k' := by
        rcases List.mem_cons.mp hk' with h | h
        · exact h.symm
        · exact absurd h hkk
      subst he
      rw [setReqGradPhase_lookup_notin _ _ _ hkk, lookupD_insertD_self, ht]
      simp [Tensor.setTrue]

theorem setReqGradPhase_olds_spec (d : Dict) (ws : List String)
    (hnd : ws.Nodup) (hpres : ∀ k ∈ ws, (lookupD d k).isSome) :
    ∀ p ∈ (setReqGradPhase d ws).2.1.zip ws,
      (lookupD d p.2).map Tensor.requiresGrad = some p.1 := by
  induction ws generalizing d with
  | nil => intro p hp; simp [setReqGradPhase] at hp
  | cons k ks ih =>
    intro p hp
    obtain ⟨t, ht⟩ := Option.isSome_iff_exists.mp (hpres k (List.mem_cons_self k ks))
    simp only [setReqGradPhase, ht, List.zip_cons_cons] at hp
    rcases List.mem_cons.mp hp with h | h
    · subst h; simp [ht]
    · have hnd' := (List.nodup_cons.mp hnd)
      have hpres' : ∀ x ∈ ks,
          (lookupD (insertD d k { t with requiresGrad := true }) x).isSome :=
        fun x hx => lookupD_insertD_isSome _ _ _ _ (hpres x (List.mem_cons_of_mem _ hx))
      have := ih _ hnd'.2 hpres' p h
      have hmem := (List.of_mem_zip h).2
      have hne : k ≠ p.2 := fun he => hnd'.1 (he ▸ hmem)
      rwa [lookupD_insertD_ne _ _ _ _ hne] at this

theorem storeGradsPhase_snd_true (sign : ℚ) (d : Dict)
    (pairs : List (String × Option Tensor)) (h : ∀ p ∈ pairs, p.2.isSome) :
    (storeGradsPhase sign d pairs).2 = true := by
  induction pairs generalizing d with
  | nil => simp [storeGradsPhase]
  | cons p rest ih =>
    obtain ⟨o, g⟩ := p
    cases g with
    | none => exact absurd (h _ (List.mem_cons_self _ _)) (by simp)
    | some gt =>
      simp only [storeGradsPhase]
      exact ih _ (fun q hq => h q (List.mem_cons_of_mem _ hq))

theorem storeGradsPhase_lookup_notin (sign : ℚ) (d : Dict)
    (pairs : List (String × Option Tensor)) (k : String)
    (hk : k ∉ pairs.map Prod.fst) :
    lookupD (storeGradsPhase sign d pairs).1 k = lookupD d k := by
  induction pairs generalizing d with
  | nil => simp [storeGradsPhase]
  | cons p rest ih =>
    obtain ⟨o, g⟩ := p
    have hne : o ≠ k := fun he => hk (by simp [he])
    cases g with
    | none => simp [storeGradsPhase]
    | some gt =>
      simp only [storeGradsPhase]
      rw [ih _ (fun h => hk (List.mem_cons_of_mem _ h)), lookupD_insertD_ne _ _ _ _ hne]

theorem storeGradsPhase_lookup_mem (sign : ℚ) (d : Dict)
    (pairs : List (String × Option Tensor))
    (hnd : (pairs.map Prod.fst).Nodup) (hsome : ∀ p ∈ pairs, p.2.isSome) :
    ∀ p ∈ pairs, ∃ gt, p.2 = some gt ∧
      lookupD (storeGradsPhase sign d pairs).1 p.1 = some (Tensor.scale sign gt) := by
  induction pairs generalizing d with
  | nil => intro p hp; cases hp
  | cons q rest ih =>
    intro p hp
    obtain ⟨o, g⟩ := q
    cases g with
    | none => exact absurd (hsome _ (List.mem_cons_self _ _)) (by simp)
    | some gt =>
      simp only [List.map_cons, List.nodup_cons] at hnd
      rcases List.mem_cons.mp hp with h | h
      · subst h
        refine ⟨gt, rfl, ?_⟩
        simp only [storeGradsPhase]
        rw [storeGradsPhase_lookup_notin _ _ _ _ hnd.1, lookupD_insertD_self]
      · obtain ⟨gt', hgt', hl⟩ := ih _ hnd.2 (fun q hq => hsome q (List.mem_cons_of_mem _ hq)) p h
        exact ⟨gt', hgt', by simpa only [storeGradsPhase] using hl⟩

theorem storeGradsPhase_lookup_isSome (sign : ℚ) (d : Dict)
    (pairs : List (String × Option Tensor)) (k : String)
    (h : (lookupD d k).isSome) :
    (lookupD (storeGradsPhase sign d pairs).1 k).isSome := by
  induction pairs generalizing d with
  | nil => simpa [storeGradsPhase]
  | cons p rest ih =>
    obtain ⟨o, g⟩ := p
    cases g with
    | none => simpa [storeGradsPhase]
    | some gt =>
      simp only [storeGradsPhase]
      exact ih _ (lookupD_insertD_isSome _ _ _ _ h)

theorem storeGradsPhase_none_spec (sign : ℚ) (d : Dict)
    (pairs : List (String × Option Tensor)) (o : String)
    (hnd : (pairs.map Prod.fst).Nodup) (hmem : (o, (none : Option Tensor)) ∈ pairs) :
    (storeGradsPhase sign d pairs).2 = false ∧
      lookupD (storeGradsPhase sign d pairs).1 o = lookupD d o := by
  induction pairs generalizing d with
  | nil => cases hmem
  | cons q rest ih =>
    obtain ⟨o', g⟩ := q
    simp only [List.map_cons, List.nodup_cons] at hnd
    cases g with
    | none => simp [storeGradsPhase]
    | some gt =>
      have hmem' : (o, (none : Option Tensor)) ∈ rest := by
        rcases List.mem_cons.mp hmem with h | h
        · exact absurd h (by simp)
        · exact h
      have hne : o' ≠ o := fun he =>
        hnd.1 (he ▸ (List.mem_map.mpr ⟨_, hmem', rfl⟩))
      obtain ⟨h1, h2⟩ := ih _ hnd.2 hmem'
      refine ⟨by simpa only [storeGradsPhase] using h1, ?_⟩
      simp only [storeGradsPhase]
      rw [h2, lookupD_insertD_ne _ _ _ _ hne]

theorem restorePhase_content (d : Dict) (pairs : List (Bool × String)) (k : String) :
    (lookupD (restorePhase d pairs).1 k).map Tensor.content =
      (lookupD d k).map Tensor.content := by
  induction pairs generalizing d with
  | nil => simp [restorePhase]
  | cons p rest ih =>
    obtain ⟨b, k'⟩ := p
    cases ht : lookupD d k' with
    | none => simp [restorePhase, ht]
    | some t =>
      simp only [restorePhase, ht]
      rw [ih]
      by_cases he : k' = k
      · subst he
        rw [lookupD_insertD_self, ht]
        simp [Tensor.content]
      · rw [lookupD_insertD_ne _ _ _ _ he]

theorem restorePhase_ok (d : Dict) (pairs : List (Bool × String))
    (h : ∀ p ∈ pairs, (lookupD d p.2).isSome) : (restorePhase d pairs).2 = true := by
  induction pairs generalizing d with
  | nil => simp [restorePhase]
  | cons p rest ih =>
    obtain ⟨b, k'⟩ := p
    obtain ⟨t, ht⟩ := Option.isSome_iff_exists.mp (h _ (List.mem_cons_self _ _))
    simp only [restorePhase, ht]
    exact ih _ (fun q hq =>
      lookupD_insertD_isSome _ _ _ _ (h q (List.mem_cons_of_mem _ hq)))

theorem restorePhase_lookup_notin (d : Dict) (pairs : List (Bool × String)) (k : String)
    (hk : k ∉ pairs.map Prod.snd) :
    lookupD (restorePhase d pairs).1 k = lookupD d k := by
  induction pairs generalizing d with
  | nil => simp [restorePhase]
  | cons p rest ih =>
    obtain ⟨b, k'⟩ := p
    have hne : k' ≠ k := fun he => hk (by simp [he])
    cases ht : lookupD d k' with
    | none => simp [restorePhase, ht]
    | some t =>
      simp only [restorePhase, ht]
      rw [ih _ (fun h => hk (List.mem_cons_of_mem _ h)), lookupD_insertD_ne _ _ _ _ hne]

theorem restorePhase_flags (d : Dict) (pairs : List (Bool × String))
    (hnd : (pairs.map Prod.snd).Nodup) (hok : (restorePhase d pairs).2 = true) :
    ∀ p ∈ pairs, (lookupD (restorePhase d pairs).1 p.2).map Tensor.requiresGrad = some p.1 := by
  induction pairs generalizing d with
  | nil => intro p hp; cases hp
  | cons q rest ih =>
    intro p hp
    obtain ⟨b, k'⟩ := q
    simp only [List.map_cons, List.nodup_cons] at hnd
    cases ht : lookupD d k' with
    | none => rw [restorePhase, ht] at hok; simp at hok
    | some t =>
      simp only [restorePhase, ht] at hok ⊢
      rcases List.mem_cons.mp hp with h | h
      · subst h
        have hnot : k' ∉ rest.map Prod.snd := hnd.1
        rw [restorePhase_lookup_notin _ _ _ hnot, lookupD_insertD_self]
        rfl
      · exact ih _ hnd.2 hok p h

theorem setReqGradPhase_ok_pres (d : Dict) (ws : List String) (hnd : ws.Nodup)
    (hok : (setReqGradPhase d ws).2.2.2 = true) :
    ∀ k ∈ ws, (lookupD d k).isSome := by
  induction ws generalizing d with
  | nil => intro k hk; cases hk
  | cons k ks ih =>
    intro k' hk'
    cases ht : lookupD d k with
    | none => rw [setReqGradPhase, ht] at hok; simp at hok
    | some t =>
      rw [setReqGradPhase, ht] at hok
      have hnd' := List.nodup_cons.mp hnd
      rcases List.mem_cons.mp hk' with h | h
      · subst h; simp [ht]
      · have := ih _ hnd'.2 hok k' h
        have hne : k ≠ k' := fun he => hnd'.1 (he ▸ h)
        rwa [lookupD_insertD_ne _ _ _ _ hne] at this

theorem foldl_insertD_lookup_notin {α : Type} (ps : List (String × α)) (d : DictT α)
    (k : String) (hk : k ∉ ps.map Prod.fst) :
    lookupD (ps.foldl (fun acc p => insertD acc p.1 p.2) d) k = lookupD d k := by
  induction ps generalizing d with
  | nil => rfl
  | cons p rest ih =>
    have hne : p.1 ≠ k := fun he => hk (by simp [he])
    simp only [List.foldl_cons]
    rw [ih _ (fun h => hk (List.mem_cons_of_mem _ h)), lookupD_insertD_ne _ _ _ _ hne]

theorem foldl_insertD_lookup_mem {α : Type} (ps : List (String × α)) (d : DictT α)
    (hnd : (ps.map Prod.fst).Nodup) :
    ∀ p ∈ ps, lookupD (ps.foldl (fun acc q => insertD acc q.1 q.2) d) p.1 = some p.2 := by
  induction ps generalizing d with
  | nil => intro p hp; cases hp
  | cons q rest ih =>
    intro p hp
    simp only [List.map_cons, List.nodup_cons] at hnd
    rcases List.mem_cons.mp hp with h | h
    · subst h
      simp only [List.foldl_cons]
      rw [foldl_insertD_lookup_notin _ _ _ hnd.1, lookupD_insertD_self]
    · simp only [List.foldl_cons]
      exact ih _ hnd.2 p h

theorem mapM_lookupD_spec {α : Type} (m : DictT α) (ws : List String) (irrs : List α)
    (h : ws.mapM (fun k => lookupD m k) = some irrs) :
    irrs.length = ws.length ∧
      ∀ i (hi : i < ws.length) (hi' : i < irrs.length),
        lookupD m (ws.get ⟨i, hi⟩) = some (irrs.get ⟨i, hi'⟩) := by
  induction ws generalizing irrs with
  | nil =>
    simp only [List.mapM_nil, pure, Option.some_inj] at h
    subst h
    exact ⟨rfl, fun i hi _ => absurd hi (by simp)⟩
  | cons k ks ih =>
    rw [List.mapM_cons] at h
    cases ht : lookupD m k with
    | none => rw [ht] at h; simp [Option.bind] at h
    | some a =>
      rw [ht] at h
      cases hrest : ks.mapM (fun k => lookupD m k) with
      | none => rw [hrest] at h; simp [Option.bind, pure] at h
      | some irrs' =>
        rw [hrest] at h
        have hirrs : irrs = a :: irrs' := by
          simpa [Option.bind, pure] using h.symm
        subst hirrs
        obtain ⟨hlen, hspec⟩ := ih _ hrest
        refine ⟨by simp [hlen], ?_⟩
        intro i hi hi'
        match i with
        | 0 => simpa using ht
        | Nat.succ j =>
          simpa using hspec j (by simpa using hi) (by simpa using hi')

/-- Core specification of a fully successful `GradientOutput.forward` call:
with all `wrt` fields present, the `of` field present in the wrapped model's
output, and every requested gradient defined, the call returns without error;
each `out_field` key maps to `sign * grad` (numeric content), and every key
outside `out_field` keeps the numeric content it has in the wrapped model's
output dictionary. -/
theorem forward_success_core (g : GradientOutput) (engine : GradEngine)
    (training : Bool) (data d2 : Dict) (grads : List (Option Tensor))
    (hndo : g.out_field.Nodup)
    (hlen : g.out_field.length = g.wrt.length)
    (hpres : ∀ k ∈ g.wrt, (lookupD data k).isSome)
    (hd2 : d2 = g.func.run (setReqGradPhase data g.wrt).1)
    (hgr : grads = engine d2 (setReqGradPhase data g.wrt).2.2.1 training)
    (hof : (lookupD d2 g.of).isSome)
    (hpres2 : ∀ k ∈ g.wrt, (lookupD d2 k).isSome)
    (hglen : grads.length = g.wrt.length)
    (hgsome : ∀ gr ∈ grads, gr.isSome) :
    (g.forward engine training data).2 = none ∧
    (∀ p ∈ g.out_field.zip grads, ∃ gt, p.2 = some gt ∧
      (lookupD (g.forward engine training data).1 p.1).map Tensor.content =
        some (Tensor.scale g.sign gt).content) ∧
    (∀ k, k ∉ g.out_field →
      (lookupD (g.forward engine training data).1 k).map Tensor.content =
        (lookupD d2 k).map Tensor.content) := by
  have hok : (setReqGradPhase data g.wrt).2.2.2 = true := setReqGradPhase_ok _ _ hpres
  obtain ⟨t0, ht0⟩ := Option.isSome_iff_exists.mp hof
  have hzsome : ∀ p ∈ g.out_field.zip grads, p.2.isSome :=
    fun p hp => hgsome _ (List.of_mem_zip hp).2
  have hst : (storeGradsPhase g.sign d2 (g.out_field.zip grads)).2 = true :=
    storeGradsPhase_snd_true _ _ _ hzsome
  have hkeys : (g.out_field.zip grads).map Prod.fst = g.out_field :=
    List.map_fst_zip _ _ (by rw [hlen, hglen])
  have hrpres : ∀ p ∈ (setReqGradPhase data g.wrt).2.1.zip g.wrt,
      (lookupD (storeGradsPhase g.sign d2 (g.out_field.zip grads)).1 p.2).isSome := by
    intro p hp
    exact storeGradsPhase_lookup_isSome _ _ _ _ (hpres2 _ (List.of_mem_zip hp).2)
  have hrok : (restorePhase (storeGradsPhase g.sign d2 (g.out_field.zip grads)).1
      ((setReqGradPhase data g.wrt).2.1.zip g.wrt)).2 = true :=
    restorePhase_ok _ _ hrpres
  have hndo' : ((g.out_field.zip grads).map Prod.fst).Nodup := by
    rw [hkeys]; exact hndo
  have hfw : g.forward engine training data =
      ((restorePhase (storeGradsPhase g.sign d2 (g.out_field.zip grads)).1
        ((setReqGradPhase data g.wrt).2.1.zip g.wrt)).1, none) := by
    rw [GradientOutput.forward, ← hd2]
    simp only [hok, ht0, ← hgr, hst, hrok, if_true]
  refine ⟨by rw [hfw], ?_, ?_⟩
  · intro p hp
    obtain ⟨gt, hgt⟩ := Option.isSome_iff_exists.mp (hzsome p hp)
    obtain ⟨gt', hgt', hl⟩ := storeGradsPhase_lookup_mem g.sign d2 _ hndo' hzsome p hp
    rw [hgt] at hgt'
    obtain rfl : gt = gt' := by simpa using hgt'
    refine ⟨gt, hgt, ?_⟩
    rw [hfw]
    simp only [restorePhase_content, hl]
    rfl
  · intro k hk
    rw [hfw]
    simp only [restorePhase_content]
    rw [storeGradsPhase_lookup_notin _ _ _ _ (by rw [hkeys]; exact hk)]

theorem get_mem_zip {α β : Type} {l1 : List α} {l2 : List β} {i : ℕ}
    (hi : i < l1.length) (hi' : i < l2.length) :
    (l1.get ⟨i, hi⟩, l2.get ⟨i, hi'⟩) ∈ l1.zip l2 := by
  induction l1 generalizing l2 i with
  | nil => cases hi
  | cons a l1' ih =>
    match l2, i with
    | [], _ => cases hi'
    | b :: l2', 0 => simp
    | b :: l2', Nat.succ j =>
      exact List.mem_cons_of_mem _ (ih (by simpa using hi) (by simpa using hi'))

/-- Concrete objects used by the witnesses below: a tiny wrapped model adding
a scalar field `"E"` to the data, a differentiation oracle reporting a single
defined gradient, and a one-field input dictionary. -/
def wFunc : GraphModule where
  run := fun d => insertD d "E" { shape := [], vals := [3], requiresGrad := true }
  irreps_in := [("x", "1o")]
  irreps_out := [("E", "0e")]

def wEngine : GradEngine :=
  fun _ _ _ => [some { shape := [1], vals := [4], requiresGrad := false }]

def wData : Dict := [("x", { shape := [1], vals := [2], requiresGrad := false })]

def wG : GradientOutput where
  func := wFunc
  of := "E"
  wrt := ["x"]
  out_field := ["o"]
  sign := 1
  irreps_in := [("x", "1o")]
  irreps_out := [("E", "0e"), ("o", "1o")]

def wD2 : Dict := wG.func.run (setReqGradPhase wData wG.wrt).1

def wGrads : List (Option Tensor) := wEngine wD2 (setReqGradPhase wData wG.wrt).2.2.1 false

/-- C2: for every input dictionary on which the wrapped model succeeds and
every requested gradient is defined, the wrapper returns the model's output
dictionary augmented so that `out_field[i]` carries `sign` times the
gradient reported for `wrt[i]` by the differentiation engine, and the
numeric content of every other key of the model's output is unchanged. -/
theorem grad_output_forward_augments (g : GradientOutput) (engine : GradEngine)
    (training : Bool) (data d2 : Dict) (grads : List (Option Tensor))
    (hndo : g.out_field.Nodup)
    (hlen : g.out_field.length = g.wrt.length)
    (hpres : ∀ k ∈ g.wrt, (lookupD data k).isSome)
    (hd2 : d2 = g.func.run (setReqGradPhase data g.wrt).1)
    (hgr : grads = engine d2 (setReqGradPhase data g.wrt).2.2.1 training)
    (hof : (lookupD d2 g.of).isSome)
    (hpres2 : ∀ k ∈ g.wrt, (lookupD d2 k).isSome)
    (hglen : grads.length = g.wrt.length)
    (hgsome : ∀ gr ∈ grads, gr.isSome) :
    (g.forward engine training data).2 = none ∧
    (∀ i (hi : i < g.out_field.length) (hi' : i < grads.length),
      ∃ gt, grads.get ⟨i, hi'⟩ = some gt ∧
        (lookupD (g.forward engine training data).1
            (g.out_field.get ⟨i, hi⟩)).map Tensor.content =
          some (Tensor.scale g.sign gt).content) ∧
    (∀ k, k ∉ g.out_field →
      (lookupD (g.forward engine training data).1 k).map Tensor.content =
        (lookupD d2 k).map Tensor.content) := by
  obtain ⟨h1, h2, h3⟩ := forward_success_core g engine training data d2 grads
    hndo hlen hpres hd2 hgr hof hpres2 hglen hgsome
  refine ⟨h1, ?_, h3⟩
  intro i hi hi'
  obtain ⟨gt, hgt, hl⟩ := h2 _ (get_mem_zip hi hi')
  exact ⟨gt, hgt, hl⟩

theorem grad_output_forward_augments_witness :
    (wG.forward wEngine false wData).2 = none :=
  (grad_output_forward_augments wG wEngine false wData wD2 wGrads
    (by decide) (by decide) (by decide) rfl rfl (by decide) (by decide)
    (by decide) (by decide)).1

/-- A differentiation oracle reporting an undefined (`None`) gradient. -/
def wEngineNone : GradEngine := fun _ _ _ => [none]

def wGradsNone : List (Option Tensor) :=
  wEngineNone wD2 (setReqGradPhase wData wG.wrt).2.2.1 false

/-- C6: if the differentiation engine returns an undefined (`None`) gradient
for a requested `wrt` field, the forward call fails with the
`GradientUnavailable` error, and the corresponding `out_field` key keeps
exactly whatever binding it had in the wrapped model's output — no gradient
entry is stored for that field. -/
theorem grad_output_forward_grad_none (g : GradientOutput) (engine : GradEngine)
    (training : Bool) (data d2 : Dict) (grads : List (Option Tensor))
    (hndo : g.out_field.Nodup)
    (hpres : ∀ k ∈ g.wrt, (lookupD data k).isSome)
    (hd2 : d2 = g.func.run (setReqGradPhase data g.wrt).1)
    (hgr : grads = engine d2 (setReqGradPhase data g.wrt).2.2.1 training)
    (hof : (lookupD d2 g.of).isSome)
    (hglen : g.out_field.length = grads.length)
    (i : ℕ) (hi : i < g.out_field.length) (hi' : i < grads.length)
    (hnone : grads.get ⟨i, hi'⟩ = none) :
    (g.forward engine training data).2 = some FwdError.gradientUnavailable ∧
    lookupD (g.forward engine training data).1 (g.out_field.get ⟨i, hi⟩) =
      lookupD d2 (g.out_field.get ⟨i, hi⟩) := by
  have hok : (setReqGradPhase data g.wrt).2.2.2 = true := setReqGradPhase_ok _ _ hpres
  obtain ⟨t0, ht0⟩ := Option.isSome_iff_exists.mp hof
  have hndk : ((g.out_field.zip grads).map Prod.fst).Nodup := by
    rw [List.map_fst_zip _ _ (le_of_eq hglen)]
    exact hndo
  have hmem : (g.out_field.get ⟨i, hi⟩, (none : Option Tensor)) ∈ g.out_field.zip grads := by
    have := get_mem_zip hi hi'
    rwa [hnone] at this
  obtain ⟨hsnd, hlook⟩ :=
    storeGradsPhase_none_spec g.sign d2 (g.out_field.zip grads) _ hndk hmem
  have hfw : g.forward engine training data =
      ((storeGradsPhase g.sign d2 (g.out_field.zip grads)).1,
        some FwdError.gradientUnavailable) := by
    rw [GradientOutput.forward, ← hd2]
    simp only [hok, ht0, ← hgr, hsnd, if_true, Bool.false_eq_true, if_false]
  rw [hfw]
  exact ⟨rfl, hlook⟩

theorem grad_output_forward_grad_none_witness :
    (wG.forward wEngineNone false wData).2 = some FwdError.gradientUnavailable :=
  (grad_output_forward_grad_none wG wEngineNone false wData wD2 wGradsNone
    (by decide) (by decide) rfl rfl (by decide) (by decide) 0 (by decide)
    (by decide) (by decide)).1

/-- C1 (amended): after any forward call that returns without error, with
pairwise-distinct `wrt` fields, every `wrt` field's differentiability flag
equals its pre-call value; the original claim also asserted this for failing
calls, which the code does not guarantee (see the counterexample). -/
theorem grad_output_restores_flags_on_success (g : GradientOutput)
    (engine : GradEngine) (training : Bool) (data res : Dict)
    (hnd : g.wrt.Nodup)
    (h : g.forward engine training data = (res, none)) :
    ∀ k ∈ g.wrt, (lookupD res k).map Tensor.requiresGrad =
      (lookupD data k).map Tensor.requiresGrad := by
  intro k hk
  rw [GradientOutput.forward] at h
  cases hok : (setReqGradPhase data g.wrt).2.2.2 with
  | false => rw [hok] at h; simp [Prod.ext_iff] at h
  | true =>
    rw [hok] at h
    simp only [if_true] at h
    cases hof : lookupD (g.func.run (setReqGradPhase data g.wrt).1) g.of with
    | none => rw [hof] at h; simp [Prod.ext_iff] at h
    | some t0 =>
      rw [hof] at h
      simp only at h
      cases hst : (storeGradsPhase g.sign (g.func.run (setReqGradPhase data g.wrt).1)
          (g.out_field.zip (engine (g.func.run (setReqGradPhase data g.wrt).1)
            (setReqGradPhase data g.wrt).2.2.1 training))).2 with
      | false => rw [hst] at h; simp [Prod.ext_iff] at h
      | true =>
        rw [hst] at h
        simp only [if_true] at h
        cases hrok : (restorePhase
            (storeGradsPhase g.sign (g.func.run (setReqGradPhase data g.wrt).1)
              (g.out_field.zip (engine (g.func.run (setReqGradPhase data g.wrt).1)
                (setReqGradPhase data g.wrt).2.2.1 training))).1
            ((setReqGradPhase data g.wrt).2.1.zip g.wrt)).2 with
        | false => rw [hrok] at h; simp [Prod.ext_iff] at h
        | true =>
          rw [hrok] at h
          simp only [if_true, Prod.mk.injEq] at h
          have hpres : ∀ k ∈ g.wrt, (lookupD data k).isSome :=
            setReqGradPhase_ok_pres data g.wrt hnd hok
          have hlolds : (setReqGradPhase data g.wrt).2.1.length = g.wrt.length :=
            setReqGradPhase_olds_length data g.wrt hpres
          obtain ⟨b, hbk⟩ := exists_mem_zip_left hlolds hk
          have holds := setReqGradPhase_olds_spec data g.wrt hnd hpres _ hbk
          have hndz : (((setReqGradPhase data g.wrt).2.1.zip g.wrt).map Prod.snd).Nodup := by
            rw [List.map_snd_zip _ _ (le_of_eq hlolds.symm)]
            exact hnd
          have hflag := restorePhase_flags _ _ hndz hrok _ hbk
          rw [← h.1, hflag, holds]

/-- Concrete data whose single `wrt` field starts with tracking disabled. -/
def cxData : Dict := [("x", { shape := [1], vals := [2], requiresGrad := false })]

/-- The wrapper state `GradientOutput.__init__` constructs for
`GradientOutput(wFunc, "E", "x", "o", 1.0)`. -/
def cxG : GradientOutput where
  func := wFunc
  of := "E"
  wrt := ["x"]
  out_field := ["o"]
  sign := 1
  irreps_in := [("x", "1o")]
  irreps_out := [("E", "0e"), ("o", "1o")]

/-- C1 (counterexample): on a forward call that fails with
`GradientUnavailable`, the `wrt` field `"x"` enters with `requires_grad =
false` but exits with `requires_grad = true` — the restoration loop sits
after the gradient check with no `try/finally`, so the flag is not restored
on the error path, contradicting the claim for failing calls. -/
theorem grad_output_restoration_counterexample :
    GradientOutput.make wFunc "E" (.inl "x") (some (.inl "o")) 1 = .ok cxG ∧
    (lookupD cxData "x").map Tensor.requiresGrad = some false ∧
    (cxG.forward wEngineNone false cxData).2 = some FwdError.gradientUnavailable ∧
    (lookupD (cxG.forward wEngineNone false cxData).1 "x").map Tensor.requiresGrad =
      some true := by
  refine ⟨rfl, rfl, rfl, rfl⟩

/-- The dictionary a successful forward call on the witness objects returns. -/
def wRes : Dict := (wG.forward wEngine false wData).1

theorem grad_output_restores_flags_on_success_witness :
    (lookupD wRes "x").map Tensor.requiresGrad =
      (lookupD wData "x").map Tensor.requiresGrad :=
  grad_output_restores_flags_on_success wG wEngine false wData wRes
    (by decide) rfl "x" (by decide)

/-- C7: constructing a `GradientOutput` with `sign` outside `{+1.0, -1.0}`
always fails with the `InvalidConfiguration` error (the `assert sign in
(1.0, -1.0)`); with `sign` equal to `+1.0` or `-1.0`, construction never
fails on account of `sign` — any failure is a `ConfigurationMismatch` or a
missing-key error, never `InvalidConfiguration`. -/
theorem grad_output_sign_validation (func : GraphModule) (of : String)
    (wrt : Sum String (List String)) (out_field : Option (Sum String (List String)))
    (sign : ℚ) :
    (¬(sign = 1 ∨ sign = -1) →
      GradientOutput.make func of wrt out_field sign =
        .error ConfigError.invalidConfiguration) ∧
    ((sign = 1 ∨ sign = -1) →
      GradientOutput.make func of wrt out_field sign ≠
        .error ConfigError.invalidConfiguration) := by
  constructor
  · intro h
    rw [GradientOutput.make, if_neg h]
  · intro h hcontra
    rw [GradientOutput.make, if_pos h] at hcontra
    rcases out_field with _ | o
    · simp only at hcontra
      cases hm : (normalizeStrList wrt).mapM (fun k => lookupD func.irreps_in k) with
      | none => rw [hm] at hcontra; exact ConfigError.noConfusion (Except.error.inj hcontra)
      | some irrs => rw [hm] at hcontra; exact Except.noConfusion hcontra
    · simp only at hcontra
      by_cases hl : (normalizeStrList o).length = (normalizeStrList wrt).length
      · rw [if_pos hl] at hcontra
        cases hm : (normalizeStrList wrt).mapM (fun k => lookupD func.irreps_in k) with
        | none => rw [hm] at hcontra; exact ConfigError.noConfusion (Except.error.inj hcontra)
        | some irrs => rw [hm] at hcontra; exact Except.noConfusion hcontra
      · rw [if_neg hl] at hcontra
        exact ConfigError.noConfusion (Except.error.inj hcontra)

theorem grad_output_sign_validation_witness :
    GradientOutput.make wFunc "E" (.inl "x") none 5 =
      .error ConfigError.invalidConfiguration ∧
    GradientOutput.make wFunc "E" (.inl "x") none 1 ≠
      .error ConfigError.invalidConfiguration :=
  ⟨(grad_output_sign_validation wFunc "E" (.inl "x") none 5).1 (by norm_num),
   (grad_output_sign_validation wFunc "E" (.inl "x") none 1).2 (Or.inl rfl)⟩

/-- C9: for every successfully constructed `GradientOutput` (with distinct
`out_field` names), the declared output type of `out_field[i]` equals the
declared input type of `wrt[i]` exactly, and every other entry of the output
type signature is a copy of the wrapped model's output type. -/
theorem grad_output_shape_propagation (func : GraphModule) (of : String)
    (wrt : Sum String (List String)) (out_field : Option (Sum String (List String)))
    (sign : ℚ) (g : GradientOutput)
    (hg : GradientOutput.make func of wrt out_field sign = .ok g)
    (hndo : g.out_field.Nodup) :
    g.out_field.length = g.wrt.length ∧
    (∀ i (hi : i < g.out_field.length) (hi' : i < g.wrt.length),
      lookupD g.irreps_out (g.out_field.get ⟨i, hi⟩) =
        lookupD func.irreps_in (g.wrt.get ⟨i, hi'⟩)) ∧
    (∀ f, f ∉ g.out_field → lookupD g.irreps_out f = lookupD func.irreps_out f) := by
  rw [GradientOutput.make] at hg
  by_cases hs : sign = 1 ∨ sign = -1
  swap
  · rw [if_neg hs] at hg; exact Except.noConfusion hg
  rw [if_pos hs] at hg
  rcases hout : out_field with _ | o
  all_goals rw [hout] at hg
  · simp only at hg
    cases hm : (normalizeStrList wrt).mapM (fun k => lookupD func.irreps_in k) with
    | none => rw [hm] at hg; exact Except.noConfusion hg
    | some irrs =>
      rw [hm] at hg
      obtain rfl := (Except.ok.inj hg).symm
      obtain ⟨hlen2, hspec⟩ := mapM_lookupD_spec func.irreps_in _ _ hm
      simp only
      refine ⟨by simp, ?_, ?_⟩
      · intro i hi hi'
        simp only at hndo
        have hkeys :
            ((((normalizeStrList wrt).map
              (fun e => "d(" ++ of ++ ")/d(" ++ e ++ ")")).zip irrs).map Prod.fst) =
              (normalizeStrList wrt).map (fun e => "d(" ++ of ++ ")/d(" ++ e ++ ")") :=
          List.map_fst_zip _ _ (by simp [hlen2])
        have hi2 : i < irrs.length := by
          rw [hlen2]; simpa using hi
        have hmem := @get_mem_zip String String ((normalizeStrList wrt).map
          (fun e => "d(" ++ of ++ ")/d(" ++ e ++ ")")) irrs i hi hi2
        have := foldl_insertD_lookup_mem _ func.irreps_out (by rw [hkeys]; exact hndo)
          _ hmem
        rw [this]
        exact (hspec i (by simpa using hi') hi2).symm
      · intro f hf
        refine foldl_insertD_lookup_notin _ _ _ ?_
        rw [List.map_fst_zip _ _ (by simp [hlen2])]
        exact hf
  · simp only at hg
    by_cases hl : (normalizeStrList o).length = (normalizeStrList wrt).length
    swap
    · rw [if_neg hl] at hg; exact Except.noConfusion hg
    rw [if_pos hl] at hg
    cases hm : (normalizeStrList wrt).mapM (fun k => lookupD func.irreps_in k) with
    | none => rw [hm] at hg; exact Except.noConfusion hg
    | some irrs =>
      rw [hm] at hg
      obtain rfl := (Except.ok.inj hg).symm
      obtain ⟨hlen2, hspec⟩ := mapM_lookupD_spec func.irreps_in _ _ hm
      simp only
      refine ⟨hl, ?_, ?_⟩
      · intro i hi hi'
        simp only at hndo hi hi'
        have hkeys : (((normalizeStrList o).zip irrs).map Prod.fst) = normalizeStrList o :=
          List.map_fst_zip _ _ (by rw [hlen2]; exact le_of_eq hl)
        have hi2 : i < irrs.length := by rw [hlen2]; exact hi'
        have hmem := @get_mem_zip String String (normalizeStrList o) irrs i hi hi2
        have := foldl_insertD_lookup_mem _ func.irreps_out (by rw [hkeys]; exact hndo)
          _ hmem
        rw [this]
        exact (hspec i hi' hi2).symm
      · intro f hf
        refine foldl_insertD_lookup_notin _ _ _ ?_
        rw [List.map_fst_zip _ _ (by rw [hlen2]; exact le_of_eq hl)]
        exact hf

theorem grad_output_shape_propagation_witness :
    lookupD cxG.irreps_out (cxG.out_field.get ⟨0, by decide⟩) =
      lookupD wFunc.irreps_in (cxG.wrt.get ⟨0, by decide⟩) :=
  (grad_output_shape_propagation wFunc "E" (.inl "x") (some (.inl "o")) 1 cxG
    rfl (by decide)).2.1 0 (by decide) (by decide)

/-- C4: `ForceOutput(M)` constructs a `GradientOutput` with
`of = "total_energy"`, `wrt = "positions"`, `out_field = "force"` and
`sign = -1`; on every input on which `M` succeeds and the gradient of the
summed total energy with respect to positions is defined, the `"force"`
field of the forward output is `-1` times that gradient. -/
theorem force_output_spec (M : GraphModule) (g : GradientOutput)
    (hg : ForceOutput M = .ok g) :
    g.func = M ∧ g.of = TOTAL_ENERGY_KEY ∧ g.wrt = [POSITIONS_KEY] ∧
    g.out_field = [FORCE_KEY] ∧ g.sign = -1 ∧
    (∀ (engine : GradEngine) (training : Bool) (data : Dict) (gt : Tensor),
      (lookupD data POSITIONS_KEY).isSome →
      (lookupD (M.run (setReqGradPhase data [POSITIONS_KEY]).1) TOTAL_ENERGY_KEY).isSome →
      (lookupD (M.run (setReqGradPhase data [POSITIONS_KEY]).1) POSITIONS_KEY).isSome →
      engine (M.run (setReqGradPhase data [POSITIONS_KEY]).1)
        (setReqGradPhase data [POSITIONS_KEY]).2.2.1 training = [some gt] →
      (g.forward engine training data).2 = none ∧
      (lookupD (g.forward engine training data).1 FORCE_KEY).map Tensor.content =
        some (Tensor.scale (-1) gt).content) := by
  rw [ForceOutput, GradientOutput.make, if_pos (by norm_num : (-1 : ℚ) = 1 ∨ (-1 : ℚ) = -1)]
    at hg
  simp only [normalizeStrList] at hg
  rw [if_pos (by decide : ([FORCE_KEY] : List String).length = [POSITIONS_KEY].length)] at hg
  cases hm : [POSITIONS_KEY].mapM (fun k => lookupD M.irreps_in k) with
  | none => rw [hm] at hg; exact Except.noConfusion hg
  | some irrs =>
    rw [hm] at hg
    obtain rfl := (Except.ok.inj hg).symm
    refine ⟨rfl, rfl, rfl, rfl, rfl, ?_⟩
    intro engine training data gt hpos hte hpos2 heng
    obtain ⟨h1, h2, _⟩ := forward_success_core
      { func := M, of := TOTAL_ENERGY_KEY, wrt := [POSITIONS_KEY],
        out_field := [FORCE_KEY], sign := -1, irreps_in := M.irreps_in,
        irreps_out := ([FORCE_KEY].zip irrs).foldl (fun d p => insertD d p.1 p.2)
          M.irreps_out }
      engine training data (M.run (setReqGradPhase data [POSITIONS_KEY]).1) [some gt]
      (by simp) rfl (by simpa using hpos) rfl heng.symm hte (by simpa using hpos2)
      rfl (by simp)
    refine ⟨h1, ?_⟩
    obtain ⟨gt', hgt', hl⟩ := h2 (FORCE_KEY, some gt) (by simp)
    obtain rfl : gt = gt' := by simpa using hgt'
    exact hl

/-- An energy model for the `ForceOutput` witness. -/
def fgM : GraphModule where
  run := fun d => insertD d TOTAL_ENERGY_KEY { shape := [], vals := [9], requiresGrad := true }
  irreps_in := [(POSITIONS_KEY, "1o")]
  irreps_out := [(TOTAL_ENERGY_KEY, "0e")]

/-- The wrapper `ForceOutput(fgM)` constructs. -/
def fgG : GradientOutput where
  func := fgM
  of := TOTAL_ENERGY_KEY
  wrt := [POSITIONS_KEY]
  out_field := [FORCE_KEY]
  sign := -1
  irreps_in := [(POSITIONS_KEY, "1o")]
  irreps_out := [(TOTAL_ENERGY_KEY, "0e"), (FORCE_KEY, "1o")]

def fgGt : Tensor := { shape := [1], vals := [6], requiresGrad := false }

def fgEngine : GradEngine := fun _ _ _ => [some fgGt]

def fgData : Dict := [(POSITIONS_KEY, { shape := [1], vals := [5], requiresGrad := false })]

theorem force_output_spec_witness :
    (fgG.forward fgEngine false fgData).2 = none ∧
    (lookupD (fgG.forward fgEngine false fgData).1 FORCE_KEY).map Tensor.content =
      some (Tensor.scale (-1) fgGt).content :=
  (force_output_spec fgM fgG rfl).2.2.2.2.2 fgEngine false fgData fgGt
    (by decide) (by decide) (by decide) rfl

/-! ### The metrics engine (`nequip/train/metrics.py`) -/

/-- Reduction modes of the running-statistic collaborator: the
`torch_runstats` `Reduction` enum members `MEAN` and `RMS`, plus any other
string passed through unmodified as the statistic's reduction mode. -/
inductive ReductionKind
  | mean
  | rms
  | other (s : String)
deriving Repr, DecidableEq

/-- A Python value stored in an options dictionary. -/
inductive PVal
  | b (v : Bool)
  | s (v : String)
  | n (v : ℕ)
  | shape (v : List ℕ)
  | red (v : ReductionKind)
deriving Repr, DecidableEq

/-- An options dictionary (`params` / `kwargs`). -/
abbrev Params := DictT PVal

/-- `d.pop(k, default)` — the looked-up value (if any) and the dictionary
with the binding removed. -/
def popD {α : Type} (d : DictT α) (k : String) : Option α × DictT α :=
  (lookupD d k, eraseD d k)

/-- Python truthiness of a stored value (`if self.per_species[key][reduction]:`
tests the raw stored object). -/
def PVal.truthy : PVal → Bool
  | .b v => v
  | .s v => !(v == "")
  | .n v => !(v == 0)
  | .shape v => !v.isEmpty
  | .red _ => true

/-- `metrics_to_reduction.get(reduction, reduction)` — `"mae"` maps to the
`MEAN` reduction, `"rmse"` to `RMS`, anything else passes through
unmodified. -/
def metricsToReduction (r : String) : ReductionKind :=
  if r = "mae" then .mean else if r = "rmse" then .rms else .other r

/-- An element of a component-spec tuple: a key/reduction name or an options
dictionary. -/
inductive CElem
  | key (s : String)
  | opts (d : Params)
deriving Repr, DecidableEq

/-- A component spec: a bare string or a tuple. -/
inductive Component
  | str (s : String)
  | tup (elems : List CElem)
deriving Repr, DecidableEq

/-- Failures of the metrics engine.  The spec's taxonomy names the
arity `ValueError` of `Metrics.parse` `InvalidConfiguration`; `missingKey`
models a Python `KeyError`/`IndexError` and `typeMismatch` the type errors
Python raises when a tuple slot or tensor has the wrong form. -/
inductive MetricsError
  | invalidConfiguration
  | typeMismatch
  | missingKey
deriving Repr, DecidableEq

/-- Read a tuple slot as a key/reduction name. -/
def CElem.asKey : CElem → Except MetricsError String
  | .key s => .ok s
  | .opts _ => .error .typeMismatch

/-- Read a tuple slot as an options dictionary (`_params.items()`). -/
def CElem.asOpts : CElem → Except MetricsError Params
  | .opts d => .ok d
  | .key _ => .error .typeMismatch

/-- `Metrics.parse`: a bare key defaults the reduction to `"mae"` and the
options to `{}`; tuples of length 1, 2, 3 destructure accordingly (the
options are deep-copied, which is the identity here); any other length
raises the `ValueError` `"tuple should have a max length of 3 ..."`. -/
def Metrics.parse : Component → Except MetricsError (String × String × Params)
  | .str k => .ok (k, "mae", [])
  | .tup es =>
    match es with
    | [a] => do
      let k ← a.asKey
      .ok (k, "mae", [])
    | [a, b] => do
      let k ← a.asKey
      let r ← b.asKey
      .ok (k, r, [])
    | [a, b, c] => do
      let k ← a.asKey
      let r ← b.asKey
      let p ← c.asOpts
      .ok (k, r, p)
    | _ => .error .invalidConfiguration

/-- An error functional from the loss registry. -/
structure LossFn where
  functional : PVal
deriving Repr, DecidableEq

/-- Modelled from the spec: `find_loss_function` (in `nequip/train/_loss`,
not among the provided sources) resolves a functional name in the
error-function registry; modelled injectively by the stored name, with the
callable's behavior supplied by an oracle at call time. -/
def find_loss_function (functional : PVal) : LossFn := ⟨functional⟩

/-- The opaque current-aggregate value a running statistic reports: the
recorded stream of accumulated batches. -/
abbrev Agg := List (Tensor × Option Tensor)

/-- Modelled from the spec: the `torch_runstats.RunningStats` collaborator —
an incremental accumulator configured by a per-example shape `dim`, reduced
axes `reduce_dims` and a reduction kind, recording every accumulated batch
(with its optional grouping index) without retaining semantics of the
aggregation itself. -/
structure RunningStats where
  dim : List ℕ
  reduceDims : List ℕ
  reduction : ReductionKind
  calls : Agg
deriving Repr, DecidableEq

/-- Modelled from the spec: the `RunningStats(**kwargs)` constructor — an
integer `dim` means a single per-example axis of that size, the default
`dim` is 1, the default `reduce_dims` is empty, the default reduction is
`MEAN`; unrelated kwargs are ignored here. -/
def RunningStats.ofKwargs (kw : Params) : RunningStats where
  dim :=
    match lookupD kw "dim" with
    | some (.shape l) => l
    | some (.n n) => [n]
    | _ => [1]
  reduceDims :=
    match lookupD kw "reduce_dims" with
    | some (.shape l) => l
    | some (.n n) => [n]
    | _ => []
  reduction :=
    match lookupD kw "reduction" with
    | some (.red r) => r
    | _ => .mean
  calls := []

/-- Modelled from the spec: `output_dim` — the aggregate shape left after
removing the reduced axes from the per-example shape. -/
def RunningStats.output_dim (rs : RunningStats) : List ℕ :=
  (rs.dim.enum.filter (fun p => !(rs.reduceDims.contains p.1))).map Prod.snd

/-- Modelled from the spec: `accumulate_batch` accumulates one batch (with
its optional `accumulate_by` grouping index) and returns the statistic's
current aggregate value. -/
def RunningStats.accumulate_batch (rs : RunningStats) (t : Tensor)
    (accBy : Option Tensor) : RunningStats × Agg :=
  let rs' := { rs with calls := rs.calls ++ [(t, accBy)] }
  (rs', rs'.calls)

/-- Modelled from the spec: `reset` clears the accumulator to its empty
initial state. -/
def RunningStats.resetStat (rs : RunningStats) : RunningStats :=
  { rs with calls := [] }

/-- Modelled from the spec: `current_result` reports the present aggregate
value without side effects. -/
def RunningStats.current_result (rs : RunningStats) : Agg := rs.calls

/-- The state of the `Metrics` engine: per-key, per-reduction running
statistics, per-species flags, error functionals (one per key), and stored
construction kwargs. -/
structure Metrics where
  running_stats : DictT (DictT RunningStats)
  per_species : DictT (DictT PVal)
  funcs : DictT LossFn
  kwargs : DictT (DictT Params)
deriving Repr, DecidableEq

/-- One step of the `Metrics.__init__` loop over `components`: parse the
spec; pop `functional` (default `"L1Loss"`) and `PerSpecies` (default
`False`); on a key's first mention create its four sub-dictionaries (fixing
the key's error functional); then store `{"reduction": metrics_to_reduction
.get(reduction, reduction)}` updated with the remaining params under
`kwargs[key][reduction]`, and the raw `PerSpecies` value under
`per_species[key][reduction]`. -/
def Metrics.initStep (m : Metrics) (c : Component) : Except MetricsError Metrics := do
  let (key, reduction, params) ← Metrics.parse c
  let pf := popD params "functional"
  let functional := pf.1.getD (.s "L1Loss")
  let pp := popD pf.2 "PerSpecies"
  let per_species := pp.1.getD (.b false)
  let params2 := pp.2
  let m1 :=
    if (lookupD m.running_stats key).isSome then m
    else
      { running_stats := insertD m.running_stats key []
        per_species := insertD m.per_species key []
        funcs := insertD m.funcs key (find_loss_function functional)
        kwargs := insertD m.kwargs key [] }
  let base : Params := [("reduction", .red (metricsToReduction reduction))]
  let merged := params2.foldl (fun acc p => insertD acc p.1 p.2) base
  let kwInner := (lookupD m1.kwargs key).getD []
  let psInner := (lookupD m1.per_species key).getD []
  .ok { m1 with
        kwargs := insertD m1.kwargs key (insertD kwInner reduction merged)
        per_species := insertD m1.per_species key (insertD psInner reduction per_species) }

/-- `Metrics.__init__`: fold the component list into an engine state. -/
def Metrics.init (components : List Component) : Except MetricsError Metrics :=
  components.foldlM Metrics.initStep
    { running_stats := [], per_species := [], funcs := [], kwargs := [] }

/-- `Metrics.init_runstat`: copy the stored params; default `dim` to the
error tensor's shape without the leading batch axis; when `reduce_dims` is
absent, pop `report_per_component` (default `False`) and, unless it is
truthy, reduce over every per-example axis; construct the statistic.  (The
`rs.to(device=...)` transfer has no content here.) -/
def Metrics.init_runstat (params : Params) (error : Tensor) : RunningStats :=
  let kw1 :=
    if (lookupD params "dim").isSome then params
    else insertD params "dim" (.shape (error.shape.drop 1))
  let kw2 :=
    if (lookupD kw1 "reduce_dims").isSome then kw1
    else
      let rpc := ((lookupD kw1 "report_per_component").map PVal.truthy).getD false
      let kw1' := eraseD kw1 "report_per_component"
      if rpc then kw1'
      else insertD kw1' "reduce_dims" (.shape (List.range (error.shape.length - 1)))
  RunningStats.ofKwargs kw2

/-- The error-function oracle: evaluates a registered functional as
`func(pred=pred, ref=ref, key=key, atomic_weight_on=False, mean=False)`,
yielding the raw elementwise error tensor. -/
abbrev LossEval := LossFn → Dict → Dict → String → Tensor

/-- `params = {"accumulate_by": pred[SPECIES_INDEX_KEY]}` when per-species
grouping is truthy (a missing species field is a Python `KeyError`), empty
params otherwise. -/
def speciesAccBy (truthy : Bool) (species : Option Tensor) :
    Except MetricsError (Option Tensor) :=
  if truthy then
    match species with
    | some sp => .ok (some sp)
    | none => .error .missingKey
  else .ok none

/-- The inner loop of `Metrics.__call__` over `self.kwargs[key].items()`:
lazily build the statistic from the error shape on first observation; look
up the per-species flag; fetch the species index as grouping key when that
flag is truthy; flatten the error to one dimension when the statistic's
declared shape is scalar and grouping is off; accumulate; and record the
returned aggregate.  (An error exit discards the partially updated
statistics dictionary, which no caller observes.) -/
def Metrics.callReductions (err : Tensor) (species : Option Tensor)
    (psInner : DictT PVal) :
    DictT RunningStats → List (String × Params) →
      Except MetricsError (DictT RunningStats × List (String × Agg))
  | stats, [] => .ok (stats, [])
  | stats, (reduction, kw) :: rest =>
    let stat :=
      match lookupD stats reduction with
      | some s => s
      | none => Metrics.init_runstat kw err
    match lookupD psInner reduction with
    | none => .error .missingKey
    | some psv =>
      match speciesAccBy psv.truthy species with
      | .error e => .error e
      | .ok accBy =>
        let arg := if stat.dim = [] ∧ ¬psv.truthy then err.flatten else err
        let r := stat.accumulate_batch arg accBy
        match Metrics.callReductions err species psInner
          (insertD stats reduction r.1) rest with
        | .error e => .error e
        | .ok next => .ok (next.1, (reduction, r.2) :: next.2)

/-- The outer loop of `Metrics.__call__` over `self.funcs.items()`: compute
the raw error tensor for the key, then process each registered reduction. -/
def Metrics.callFuncs (lossEval : LossEval) (pred ref : Dict)
    (perSpecies : DictT (DictT PVal)) (kwargsAll : DictT (DictT Params)) :
    DictT (DictT RunningStats) → List (String × LossFn) →
      Except MetricsError (DictT (DictT RunningStats) × List ((String × String) × Agg))
  | rstats, [] => .ok (rstats, [])
  | rstats, (key, f) :: rest =>
    let err := lossEval f pred ref key
    match lookupD kwargsAll key with
    | none => .error .missingKey
    | some kws =>
      match lookupD rstats key with
      | none => .error .missingKey
      | some statsIn =>
        match lookupD perSpecies key with
        | none => .error .missingKey
        | some psInner =>
          match Metrics.callReductions err (lookupD pred SPECIES_INDEX_KEY)
            psInner statsIn kws with
          | .error e => .error e
          | .ok step =>
            match Metrics.callFuncs lossEval pred ref perSpecies kwargsAll
              (insertD rstats key step.1) rest with
            | .error e => .error e
            | .ok next =>
              .ok (next.1, step.2.map (fun e => ((key, e.1), e.2)) ++ next.2)

/-- `Metrics.__call__(pred, ref)`: accumulate one batch of errors for every
tracked key and reduction, returning the updated engine state together with
each statistic's current aggregate. -/
def Metrics.call (m : Metrics) (lossEval : LossEval) (pred ref : Dict) :
    Except MetricsError (Metrics × List ((String × String) × Agg)) :=
  match Metrics.callFuncs lossEval pred ref m.per_species m.kwargs
    m.running_stats m.funcs with
  | .error e => .error e
  | .ok r => .ok ({ m with running_stats := r.1 }, r.2)

/-- `Metrics.reset`: reset every tracked statistic. -/
def Metrics.reset (m : Metrics) : Metrics :=
  { m with running_stats :=
      m.running_stats.map (fun p => (p.1, p.2.map (fun q => (q.1, q.2.resetStat)))) }

/-- `Metrics.current_result`: the present aggregate of every statistic. -/
def Metrics.current_result (m : Metrics) : List ((String × String) × Agg) :=
  m.running_stats.foldl
    (fun acc p => acc ++ p.2.map (fun q => ((p.1, q.1), q.2.current_result))) []

/-- `tensor.item()` — the single element of a one-element tensor; anything
else is a Python runtime error. -/
def Tensor.item (t : Tensor) : Except MetricsError ℚ :=
  match t.vals with
  | [v] => .ok v
  | _ => .error .typeMismatch

/-- `tensor.mean().item()` — the mean over all elements. -/
def Tensor.meanAll (t : Tensor) : ℚ := t.vals.sum / t.vals.length

/-- Iteration over a tensor's leading axis (`for i, v in enumerate(t)`): the
row-major slices along the first dimension.  (Iterating a zero-rank tensor
is a Python error and lies outside the modelled domain; it yields no rows
here.) -/
def Tensor.rows (t : Tensor) : List Tensor :=
  match t.shape with
  | [] => []
  | _ :: rest =>
    (List.range (t.shape.headD 0)).map (fun i =>
      { shape := rest, vals := (t.vals.drop (i * rest.prod)).take rest.prod,
        requiresGrad := t.requiresGrad })

/-- Modelled from the spec: the global `ABBREV` table (`nequip/train/_key`,
not among the provided sources) maps long field names to short report
labels, consistent with the spec's vocabulary. -/
def ABBREV : DictT String := [(TOTAL_ENERGY_KEY, "e"), (FORCE_KEY, "f")]

/-- `item_name = f"{short_name}_{reduction}"` with
`short_name = ABBREV.get(key, key)`. -/
def itemName (key reduction : String) : String :=
  (lookupD ABBREV key).getD key ++ "_" ++ reduction

/-- One iteration of the per-species scalar loop of `flatten_metrics`:
`flat_dict[f"{element_names[id_ele]}_{item_name}"] = v.item()` (an
out-of-range species label is an `IndexError`). -/
def perSpeciesScalarEntry (item_name : String) (element_names : List String)
    (p : ℕ × Tensor) : Except MetricsError (String × ℚ) :=
  match element_names.get? p.1 with
  | none => .error .missingKey
  | some ele => p.2.item.bind (fun v => .ok (ele ++ "_" ++ item_name, v))

/-- The per-species scalar-statistic entries of `flatten_metrics`, one per
leading-axis slice. -/
def perSpeciesScalarEntries (item_name : String) (element_names : List String)
    (value : Tensor) : Except MetricsError (List (String × ℚ)) :=
  value.rows.enum.mapM (perSpeciesScalarEntry item_name element_names)

/-- One species row of the per-species non-scalar loop of
`flatten_metrics`: `f"{ele}_{item_name}_{idx}"` per component. -/
def perSpeciesVectorRow (item_name : String) (element_names : List String)
    (p : ℕ × Tensor) : Except MetricsError (List (String × ℚ)) :=
  match element_names.get? p.1 with
  | none => .error .missingKey
  | some ele =>
    p.2.rows.enum.mapM (fun q =>
      q.2.item.bind (fun v => .ok (ele ++ "_" ++ item_name ++ "_" ++ toString q.1, v)))

/-- The per-species non-scalar entries of `flatten_metrics`, one per species
and component. -/
def perSpeciesVectorEntries (item_name : String) (element_names : List String)
    (value : Tensor) : Except MetricsError (List (String × ℚ)) :=
  match value.rows.enum.mapM (perSpeciesVectorRow item_name element_names) with
  | .error e => .error e
  | .ok ll => .ok ll.flatten

/-- The non-grouped vector entries of `flatten_metrics`:
`f"{item_name}_{idx}"` per component of the flattened value. -/
def vectorEntries (item_name : String) (value : Tensor) :
    Except MetricsError (List (String × ℚ)) :=
  value.flatten.rows.enum.mapM (fun q =>
    q.2.item.bind (fun v => .ok (item_name ++ "_" ++ toString q.1, v)))

/-- One iteration of the `flatten_metrics` loop over `metrics.items()`,
threading `(flat_dict, skip_keys)`.  Per-species values are iterated over
their leading (species) axis with `element_names` either the numeric range
of that axis or the caller's `allowed_species`; scalar statistics emit one
entry per species plus the synthesized `all_` mean entry; non-scalar
statistics emit one entry per species and component (recorded in
`skip_keys`) and no `all_` entry.  Ungrouped values emit a single entry
(scalar statistic) or one entry per flattened component. -/
def Metrics.flattenStep (m : Metrics) (allowed_species : Option (List String))
    (acc : List (String × ℚ) × List String) (kv : (String × String) × Tensor) :
    Except MetricsError (List (String × ℚ) × List String) :=
  let key := kv.1.1
  let reduction := kv.1.2
  let value := kv.2
  let item_name := itemName key reduction
  match (lookupD m.running_stats key).bind (fun s => lookupD s reduction) with
  | none => .error .missingKey
  | some stat =>
    match (lookupD m.per_species key).bind (fun s => lookupD s reduction) with
    | none => .error .missingKey
    | some per_species =>
      if per_species.truthy then
        match value.shape with
        | [] => .error .typeMismatch
        | n :: _ =>
          let element_names :=
            match allowed_species with
            | none => (List.range n).map toString
            | some l => l
          if stat.output_dim = [] then
            match perSpeciesScalarEntries item_name element_names value with
            | .error e => .error e
            | .ok entries =>
              .ok (insertD (entries.foldl (fun d p => insertD d p.1 p.2) acc.1)
                ("all_" ++ item_name) value.meanAll, acc.2)
          else
            match perSpeciesVectorEntries item_name element_names value with
            | .error e => .error e
            | .ok entries =>
              .ok (entries.foldl (fun d p => insertD d p.1 p.2) acc.1,
                acc.2 ++ entries.map Prod.fst)
      else
        if stat.output_dim = [] then
          match value.item with
          | .error e => .error e
          | .ok v => .ok (insertD acc.1 item_name v, acc.2)
        else
          match vectorEntries item_name value with
          | .error e => .error e
          | .ok entries =>
            .ok (entries.foldl (fun d p => insertD d p.1 p.2) acc.1, acc.2)

/-- `Metrics.flatten_metrics(metrics, allowed_species)`: flatten a
structured `{(key, reduction): value}` mapping into `(flat_dict,
skip_keys)`. -/
def Metrics.flatten_metrics (m : Metrics) (metrics : List ((String × String) × Tensor))
    (allowed_species : Option (List String)) :
    Except MetricsError (List (String × ℚ) × List String) :=
  metrics.foldlM (Metrics.flattenStep m allowed_species) ([], [])

/-- C8: a component-spec tuple longer than three elements fails parsing with
the `InvalidConfiguration` (`ValueError`) arity error, while a bare key, a
1-tuple, a `(key, reduction)` pair, and a `(key, reduction, options)` triple
are all accepted. -/
theorem metrics_parse_arity :
    (∀ es : List CElem, 3 < es.length →
      Metrics.parse (.tup es) = .error MetricsError.invalidConfiguration) ∧
    (∀ k : String, Metrics.parse (.str k) = .ok (k, "mae", [])) ∧
    (∀ k : String, Metrics.parse (.tup [.key k]) = .ok (k, "mae", [])) ∧
    (∀ k r : String, Metrics.parse (.tup [.key k, .key r]) = .ok (k, r, [])) ∧
    (∀ (k r : String) (p : Params),
      Metrics.parse (.tup [.key k, .key r, .opts p]) = .ok (k, r, p)) := by
  refine ⟨?_, fun _ => rfl, fun _ => rfl, fun _ _ => rfl, fun _ _ _ => rfl⟩
  intro es h
  match es with
  | [] => simp at h
  | [_] => simp at h
  | [_, _] => simp at h
  | [_, _, _] => simp at h
  | _ :: _ :: _ :: _ :: _ => rfl

theorem metrics_parse_arity_witness :
    Metrics.parse (.tup [.key "force", .key "rmse", .opts [], .key "extra"]) =
      .error MetricsError.invalidConfiguration :=
  metrics_parse_arity.1 [.key "force", .key "rmse", .opts [], .key "extra"] (by decide)

/-- The key a component spec mentions (when it parses). -/
def specKey (c : Component) : Option String :=
  (Metrics.parse c).toOption.map (fun t => t.1)

/-- The functional a component spec requests: the popped `functional`
option, defaulting to `"L1Loss"` (when the spec parses). -/
def specFunctional (c : Component) : Option PVal :=
  (Metrics.parse c).toOption.map
    (fun t => ((popD t.2.2 "functional").1).getD (.s "L1Loss"))

theorem initStep_preserves (m m' : Metrics) (c : Component) (k : String)
    (hstep : Metrics.initStep m c = .ok m')
    (hsome : (lookupD m.running_stats k).isSome) :
    lookupD m'.funcs k = lookupD m.funcs k ∧
    (lookupD m'.running_stats k).isSome := by
  rcases hp : Metrics.parse c with e | ⟨key, reduction, params⟩ <;>
    rw [Metrics.initStep] at hstep <;>
    simp only [hp, Except.bind, bind] at hstep
  · exact Except.noConfusion hstep
  · obtain rfl := Except.ok.inj hstep
    by_cases hguard : (lookupD m.running_stats key).isSome
    · simp only [hguard, if_true]
      exact ⟨trivial, hsome⟩
    · simp only [hguard, if_false, Bool.false_eq_true]
      have hkey : key ≠ k := by
        intro he
        rw [he] at hguard
        exact hguard hsome
      constructor
      · exact lookupD_insertD_ne _ _ _ _ hkey
      · rw [lookupD_insertD_ne _ _ _ _ hkey]
        exact hsome

theorem initStep_fresh_other (m m' : Metrics) (c : Component) (k : String)
    (hstep : Metrics.initStep m c = .ok m')
    (hkc : specKey c ≠ some k) :
    lookupD m'.funcs k = lookupD m.funcs k ∧
    lookupD m'.running_stats k = lookupD m.running_stats k := by
  rcases hp : Metrics.parse c with e | ⟨key, reduction, params⟩ <;>
    rw [Metrics.initStep] at hstep <;>
    simp only [hp, Except.bind, bind] at hstep
  · exact Except.noConfusion hstep
  · obtain rfl := Except.ok.inj hstep
    have hkey : key ≠ k := by
      intro he
      apply hkc
      rw [specKey, hp, ← he]
      rfl
    by_cases hguard : (lookupD m.running_stats key).isSome
    · simp only [hguard, if_true]
      exact ⟨trivial, trivial⟩
    · simp only [hguard, if_false, Bool.false_eq_true]
      exact ⟨lookupD_insertD_ne _ _ _ _ hkey, lookupD_insertD_ne _ _ _ _ hkey⟩

theorem initStep_found (m m' : Metrics) (c : Component) (k : String)
    (hstep : Metrics.initStep m c = .ok m')
    (hkc : specKey c = some k)
    (hnone : lookupD m.running_stats k = none) :
    lookupD m'.funcs k = (specFunctional c).map find_loss_function ∧
    (lookupD m'.running_stats k).isSome := by
  rcases hp : Metrics.parse c with e | ⟨key, reduction, params⟩ <;>
    rw [Metrics.initStep] at hstep <;>
    simp only [hp, Except.bind, bind] at hstep
  · exact Except.noConfusion hstep
  · obtain rfl := Except.ok.inj hstep
    have hkey : key = k := by
      rw [specKey, hp] at hkc
      exact Option.some.inj hkc
    subst hkey
    have hguard : ¬(lookupD m.running_stats key).isSome := by
      rw [hnone]; simp
    simp only [hguard, if_false, Bool.false_eq_true]
    rw [specFunctional, hp]
    constructor
    · rw [lookupD_insertD_self]
      rfl
    · rw [lookupD_insertD_self]
      rfl

theorem init_fold_preserves (cs : List Component) (m0 m : Metrics) (k : String)
    (h : cs.foldlM Metrics.initStep m0 = .ok m)
    (hsome : (lookupD m0.running_stats k).isSome) :
    lookupD m.funcs k = lookupD m0.funcs k ∧
    (lookupD m.running_stats k).isSome := by
  induction cs generalizing m0 with
  | nil =>
    simp only [List.foldlM_nil, pure, Except.pure] at h
    obtain rfl := Except.ok.inj h
    exact ⟨rfl, hsome⟩
  | cons c rest ih =>
    rw [List.foldlM_cons] at h
    cases h1 : Metrics.initStep m0 c with
    | error e => rw [h1] at h; exact Except.noConfusion h
    | ok m1 =>
      rw [h1] at h
      simp only [Except.bind, bind] at h
      obtain ⟨hf, hs⟩ := initStep_preserves m0 m1 c k h1 hsome
      obtain ⟨hf', hs'⟩ := ih m1 h hs
      exact ⟨hf'.trans hf, hs'⟩

theorem init_fold_first_functional (cs : List Component) (m0 m : Metrics)
    (k : String) (c0 : Component)
    (h : cs.foldlM Metrics.initStep m0 = .ok m)
    (hfind : cs.find? (fun c => specKey c == some k) = some c0)
    (hnoneR : lookupD m0.running_stats k = none) :
    lookupD m.funcs k = (specFunctional c0).map find_loss_function := by
  induction cs generalizing m0 with
  | nil => exact Option.noConfusion hfind
  | cons c rest ih =>
    rw [List.foldlM_cons] at h
    cases h1 : Metrics.initStep m0 c with
    | error e => rw [h1] at h; exact Except.noConfusion h
    | ok m1 =>
      rw [h1] at h
      simp only [Except.bind, bind] at h
      cases hp : (specKey c == some k) with
      | true =>
        obtain rfl : c = c0 := by
          simp only [List.find?, hp] at hfind
          exact Option.some.inj hfind
        have hkc : specKey c = some k := by
          simpa using (beq_iff_eq.mp hp)
        obtain ⟨hf, hs⟩ := initStep_found m0 m1 c k h1 hkc hnoneR
        obtain ⟨hf', _⟩ := init_fold_preserves rest m1 m k h hs
        exact hf'.trans hf
      | false =>
        have hkc : specKey c ≠ some k := by
          intro he
          rw [he] at hp
          simp at hp
        simp only [List.find?, hp] at hfind
        obtain ⟨_, hr⟩ := initStep_fresh_other m0 m1 c k h1 hkc
        exact ih m1 h hfind (by rw [hr, hnoneR])

/-- C10: when the same key appears in several component specs, the error
functional registered for that key is the one requested by the first spec
mentioning the key (default `"L1Loss"`); a different `functional` option in
any later spec for the same key is silently ignored — construction still
succeeds and the registered functional is unchanged. -/
theorem metrics_first_functional_wins (cs : List Component) (m : Metrics)
    (k : String) (c0 : Component)
    (hinit : Metrics.init cs = .ok m)
    (hfind : cs.find? (fun c => specKey c == some k) = some c0) :
    lookupD m.funcs k = (specFunctional c0).map find_loss_function :=
  init_fold_first_functional cs _ m k c0 hinit hfind rfl

def c10cs : List Component :=
  [.tup [.key "force", .key "mae", .opts [("functional", .s "L1Loss")]],
   .tup [.key "force", .key "rmse", .opts [("functional", .s "MSELoss")]]]

def c10m : Metrics :=
  (Metrics.init c10cs).toOption.getD
    { running_stats := [], per_species := [], funcs := [], kwargs := [] }

theorem metrics_first_functional_wins_witness :
    lookupD c10m.funcs "force" =
      (specFunctional (.tup [.key "force", .key "mae",
        .opts [("functional", .s "L1Loss")]])).map find_loss_function :=
  metrics_first_functional_wins c10cs c10m "force"
    (.tup [.key "force", .key "mae", .opts [("functional", .s "L1Loss")]])
    rfl rfl

theorem lookupD_eraseD_ne {α : Type} (d : DictT α) (k k' : String) (h : k ≠ k') :
    lookupD (eraseD d k) k' = lookupD d k' := by
  induction d with
  | nil => rfl
  | cons hd tl ih =>
    obtain ⟨k0, v0⟩ := hd
    by_cases h0 : k0 = k
    · subst h0
      simp [eraseD, lookupD, h]
    · simp only [eraseD, if_neg h0, lookupD]
      by_cases h1 : k0 = k' <;> simp [h1, ih]

theorem ofKwargs_dim_shape (kw : Params) (l : List ℕ)
    (h : lookupD kw "dim" = some (.shape l)) : (RunningStats.ofKwargs kw).dim = l := by
  simp [RunningStats.ofKwargs, h]

theorem init_runstat_dim (params : Params) (err : Tensor)
    (hdim : lookupD params "dim" = none) :
    (Metrics.init_runstat params err).dim = err.shape.drop 1 := by
  rw [Metrics.init_runstat]
  simp only [hdim, Option.isSome_none, Bool.false_eq_true, if_false]
  have hd1 : lookupD (insertD params "dim" (PVal.shape (err.shape.drop 1))) "dim" =
      some (PVal.shape (err.shape.drop 1)) := lookupD_insertD_self _ _ _
  by_cases hrd : (lookupD (insertD params "dim" (PVal.shape (err.shape.drop 1)))
      "reduce_dims").isSome
  · simp only [hrd, if_true]
    exact ofKwargs_dim_shape _ _ hd1
  · simp only [hrd, if_false, Bool.false_eq_true]
    by_cases hrpc : ((lookupD (insertD params "dim" (PVal.shape (err.shape.drop 1)))
        "report_per_component").map PVal.truthy).getD false
    · simp only [hrpc, if_true]
      refine ofKwargs_dim_shape _ _ ?_
      rw [lookupD_eraseD_ne _ _ _ (by decide)]
      exact hd1
    · simp only [hrpc, if_false, Bool.false_eq_true]
      refine ofKwargs_dim_shape _ _ ?_
      rw [lookupD_insertD_ne _ _ _ _ (by decide), lookupD_eraseD_ne _ _ _ (by decide)]
      exact hd1

theorem speciesAccBy_ok (t : Bool) (s : Option Tensor) (a : Option Tensor)
    (h : speciesAccBy t s = .ok a) : a = if t then s else none := by
  unfold speciesAccBy at h
  cases t with
  | false => simpa using (Except.ok.inj h).symm
  | true =>
    cases s with
    | none => exact Except.noConfusion h
    | some sp => simpa using (Except.ok.inj h).symm

theorem callReductions_lookup_notin (err : Tensor) (species : Option Tensor)
    (psInner : DictT PVal) (stats statsOut : DictT RunningStats)
    (kws : List (String × Params)) (out : List (String × Agg)) (r : String)
    (hok : Metrics.callReductions err species psInner stats kws = .ok (statsOut, out))
    (hr : r ∉ kws.map Prod.fst) :
    lookupD statsOut r = lookupD stats r := by
  induction kws generalizing stats statsOut out with
  | nil =>
    simp only [Metrics.callReductions] at hok
    have h1 : stats = statsOut := congrArg Prod.fst (Except.ok.inj hok)
    rw [← h1]
  | cons p rest ih =>
    obtain ⟨red0, kw0⟩ := p
    have hne : red0 ≠ r := fun he => hr (by simp [he])
    have hr' : r ∉ rest.map Prod.fst := fun hm => hr (List.mem_cons_of_mem _ hm)
    simp only [Metrics.callReductions] at hok
    split at hok
    · exact Except.noConfusion hok
    · split at hok
      · exact Except.noConfusion hok
      · split at hok
        · exact Except.noConfusion hok
        · rename_i next heq
          have h1 : next.1 = statsOut := congrArg Prod.fst (Except.ok.inj hok)
          rw [← h1]
          rw [ih _ _ _ heq hr', lookupD_insertD_ne _ _ _ _ hne]

theorem callReductions_spec (err : Tensor) (species : Option Tensor)
    (psInner : DictT PVal) (stats statsOut : DictT RunningStats)
    (kws : List (String × Params)) (out : List (String × Agg))
    (hok : Metrics.callReductions err species psInner stats kws = .ok (statsOut, out))
    (hnd : (kws.map Prod.fst).Nodup)
    (reduction : String) (kw : Params) (hkw : (reduction, kw) ∈ kws)
    (psv : PVal) (hps : lookupD psInner reduction = some psv) :
    ∃ stat0,
      (lookupD stats reduction = some stat0 ∨
        (lookupD stats reduction = none ∧ stat0 = Metrics.init_runstat kw err)) ∧
      lookupD statsOut reduction = some
        { stat0 with calls := stat0.calls ++
            [(if stat0.dim = [] ∧ ¬psv.truthy then err.flatten else err,
              if psv.truthy then species else none)] } := by
  induction kws generalizing stats statsOut out with
  | nil => cases hkw
  | cons p rest ih =>
    obtain ⟨red0, kw0⟩ := p
    simp only [List.map_cons, List.nodup_cons] at hnd
    simp only [Metrics.callReductions] at hok
    split at hok
    · exact Except.noConfusion hok
    · rename_i psv0 hps0
      split at hok
      · exact Except.noConfusion hok
      · rename_i accBy hacc
        have haccBy : accBy = if psv0.truthy then species else none :=
          speciesAccBy_ok _ _ _ hacc
        split at hok
        · exact Except.noConfusion hok
        · rename_i next heq
          have h1 : next.1 = statsOut := congrArg Prod.fst (Except.ok.inj hok)
          rcases List.mem_cons.mp hkw with hhead | htail
          · have hr0 : reduction = red0 := congrArg Prod.fst hhead
            have hkw0 : kw = kw0 := congrArg Prod.snd hhead
            subst hr0
            subst hkw0
            have hpsv0 : psv = psv0 := by
              rw [hps] at hps0
              exact Option.some.inj hps0
            subst hpsv0
            refine ⟨match lookupD stats reduction with
              | some s => s
              | none => Metrics.init_runstat kw err, ?_, ?_⟩
            · cases hl : lookupD stats reduction with
              | some s => exact Or.inl rfl
              | none => exact Or.inr ⟨rfl, rfl⟩
            · rw [← h1, callReductions_lookup_notin _ _ _ _ _ _ _ _ heq hnd.1,
                lookupD_insertD_self, haccBy]
              rfl
          · have hne : red0 ≠ reduction := by
              intro he
              exact hnd.1 (he ▸ List.mem_map.mpr ⟨_, htail, rfl⟩)
            obtain ⟨stat0, hd, hl⟩ := ih _ _ _ heq hnd.2 htail
            rw [lookupD_insertD_ne _ _ _ _ hne] at hd
            rw [← h1]
            exact ⟨stat0, hd, hl⟩

theorem callFuncs_lookup_notin (lossEval : LossEval) (pred ref : Dict)
    (perSpecies : DictT (DictT PVal)) (kwargsAll : DictT (DictT Params))
    (rstats rOut : DictT (DictT RunningStats)) (funcsList : List (String × LossFn))
    (out : List ((String × String) × Agg)) (k : String)
    (hok : Metrics.callFuncs lossEval pred ref perSpecies kwargsAll rstats funcsList =
      .ok (rOut, out))
    (hk : k ∉ funcsList.map Prod.fst) :
    lookupD rOut k = lookupD rstats k := by
  induction funcsList generalizing rstats rOut out with
  | nil =>
    simp only [Metrics.callFuncs] at hok
    have h1 : rstats = rOut := congrArg Prod.fst (Except.ok.inj hok)
    rw [← h1]
  | cons p rest ih =>
    obtain ⟨key0, f0⟩ := p
    have hne : key0 ≠ k := fun he => hk (by simp [he])
    have hk' : k ∉ rest.map Prod.fst := fun hm => hk (List.mem_cons_of_mem _ hm)
    simp only [Metrics.callFuncs] at hok
    split at hok
    · exact Except.noConfusion hok
    · split at hok
      · exact Except.noConfusion hok
      · split at hok
        · exact Except.noConfusion hok
        · split at hok
          · exact Except.noConfusion hok
          · split at hok
            · exact Except.noConfusion hok
            · rename_i next heq
              have h1 : next.1 = rOut := congrArg Prod.fst (Except.ok.inj hok)
              rw [← h1]
              rw [ih _ _ _ heq hk', lookupD_insertD_ne _ _ _ _ hne]

theorem callFuncs_spec (lossEval : LossEval) (pred ref : Dict)
    (perSpecies : DictT (DictT PVal)) (kwargsAll : DictT (DictT Params))
    (rstats rOut : DictT (DictT RunningStats)) (funcsList : List (String × LossFn))
    (out : List ((String × String) × Agg))
    (hok : Metrics.callFuncs lossEval pred ref perSpecies kwargsAll rstats funcsList =
      .ok (rOut, out))
    (hnd : (funcsList.map Prod.fst).Nodup)
    (key : String) (f : LossFn) (hkf : (key, f) ∈ funcsList) :
    ∃ kws statsIn psInner stepStats stepOut,
      lookupD kwargsAll key = some kws ∧
      lookupD rstats key = some statsIn ∧
      lookupD perSpecies key = some psInner ∧
      Metrics.callReductions (lossEval f pred ref key) (lookupD pred SPECIES_INDEX_KEY)
        psInner statsIn kws = .ok (stepStats, stepOut) ∧
      lookupD rOut key = some stepStats := by
  induction funcsList generalizing rstats rOut out with
  | nil => cases hkf
  | cons p rest ih =>
    obtain ⟨key0, f0⟩ := p
    simp only [List.map_cons, List.nodup_cons] at hnd
    simp only [Metrics.callFuncs] at hok
    split at hok
    · exact Except.noConfusion hok
    · rename_i kws0 hkws0
      split at hok
      · exact Except.noConfusion hok
      · rename_i statsIn0 hstats0
        split at hok
        · exact Except.noConfusion hok
        · rename_i psInner0 hps0
          split at hok
          · exact Except.noConfusion hok
          · rename_i step0 hstep0
            split at hok
            · exact Except.noConfusion hok
            · rename_i next heq
              have h1 : next.1 = rOut := congrArg Prod.fst (Except.ok.inj hok)
              rcases List.mem_cons.mp hkf with hhead | htail
              · have hk0 : key = key0 := congrArg Prod.fst hhead
                have hf0 : f = f0 := congrArg Prod.snd hhead
                subst hk0
                subst hf0
                refine ⟨kws0, statsIn0, psInner0, step0.1, step0.2,
                  hkws0, hstats0, hps0, by rw [hstep0], ?_⟩
                rw [← h1, callFuncs_lookup_notin _ _ _ _ _ _ _ _ _ _ heq hnd.1,
                  lookupD_insertD_self]
              · have hne : key0 ≠ key := by
                  intro he
                  exact hnd.1 (he ▸ List.mem_map.mpr ⟨_, htail, rfl⟩)
                obtain ⟨kws, statsIn, psInner, stepStats, stepOut,
                  hkws, hstats, hps, hred, hout⟩ := ih _ _ _ heq hnd.2 htail
                rw [lookupD_insertD_ne _ _ _ _ hne] at hstats
                rw [← h1]
                exact ⟨kws, statsIn, psInner, stepStats, stepOut,
                  hkws, hstats, hps, hred, hout⟩

/-- C3: for each tracked `(key, reduction)` pair, on a call that first
observes the pair the running statistic is constructed by `init_runstat`,
and when neither `dim` nor `reduce_dims` was configured its per-example
shape is the error tensor's shape without the leading batch axis; on every
call, the accumulated batch is the error flattened to one dimension exactly
when the statistic's declared shape is scalar and per-species grouping is
off, and the error with its native shape otherwise (with the species index
passed as grouping key exactly when grouping is on). -/
theorem metrics_call_lazy_init_and_accumulate (m m2 : Metrics) (lossEval : LossEval)
    (pred ref : Dict) (out : List ((String × String) × Agg))
    (hcall : m.call lossEval pred ref = .ok (m2, out))
    (hndf : (m.funcs.map Prod.fst).Nodup)
    (key : String) (f : LossFn) (hkf : (key, f) ∈ m.funcs)
    (kws : List (String × Params)) (hkws : lookupD m.kwargs key = some kws)
    (hndk : (kws.map Prod.fst).Nodup)
    (reduction : String) (kw : Params) (hkw : (reduction, kw) ∈ kws)
    (statsIn : DictT RunningStats) (hstats : lookupD m.running_stats key = some statsIn)
    (psInner : DictT PVal) (hps : lookupD m.per_species key = some psInner)
    (psv : PVal) (hpsv : lookupD psInner reduction = some psv) :
    ∃ stat0 statsOut,
      (lookupD statsIn reduction = some stat0 ∨
        (lookupD statsIn reduction = none ∧
          stat0 = Metrics.init_runstat kw (lossEval f pred ref key))) ∧
      lookupD m2.running_stats key = some statsOut ∧
      lookupD statsOut reduction = some
        { stat0 with calls := stat0.calls ++
            [(if stat0.dim = [] ∧ ¬psv.truthy then (lossEval f pred ref key).flatten
              else lossEval f pred ref key,
              if psv.truthy then lookupD pred SPECIES_INDEX_KEY else none)] } ∧
      (lookupD statsIn reduction = none → lookupD kw "dim" = none →
        lookupD kw "reduce_dims" = none →
        stat0.dim = (lossEval f pred ref key).shape.drop 1) := by
  rw [Metrics.call] at hcall
  split at hcall
  · exact Except.noConfusion hcall
  · rename_i r heq
    obtain ⟨h1, _⟩ := Prod.mk.injEq .. ▸ Except.ok.inj hcall
    obtain ⟨kws', statsIn', psInner', stepStats, stepOut,
      hkws', hstats', hps', hred, hout⟩ := callFuncs_spec _ _ _ _ _ _ _ _ _ heq hndf key f hkf
    obtain rfl : kws' = kws := by rw [hkws'] at hkws; exact Option.some.inj hkws
    obtain rfl : statsIn' = statsIn := by rw [hstats'] at hstats; exact Option.some.inj hstats
    obtain rfl : psInner' = psInner := by rw [hps'] at hps; exact Option.some.inj hps
    obtain ⟨stat0, hd, hl⟩ :=
      callReductions_spec _ _ _ _ _ _ _ hred hndk reduction kw hkw psv hpsv
    refine ⟨stat0, stepStats, hd, ?_, hl, ?_⟩
    · rw [← h1]
      exact hout
    · intro hnone hdim _
      rcases hd with hd | ⟨_, rfl⟩
      · rw [hnone] at hd; exact Option.noConfusion hd
      · exact init_runstat_dim _ _ hdim

/-- Concrete objects for the accumulation witness: a single
`("force", "rmse")` component and a 2×3 error tensor. -/
def c3cs : List Component := [.tup [.key "force", .key "rmse"]]

def c3m : Metrics :=
  (Metrics.init c3cs).toOption.getD
    { running_stats := [], per_species := [], funcs := [], kwargs := [] }

def c3err : Tensor := { shape := [2, 3], vals := [1, 0, 0, 0, 2, 0], requiresGrad := false }

def c3loss : LossEval := fun _ _ _ _ => c3err

def c3f : LossFn := find_loss_function (.s "L1Loss")

def c3kw : Params := [("reduction", .red .rms)]

def c3kws : List (String × Params) := [("rmse", c3kw)]

def c3res : Metrics × List ((String × String) × Agg) :=
  (c3m.call c3loss [] []).toOption.getD (c3m, [])

theorem metrics_call_lazy_init_and_accumulate_witness :
    ∃ stat0 statsOut,
      (lookupD ([] : DictT RunningStats) "rmse" = some stat0 ∨
        (lookupD ([] : DictT RunningStats) "rmse" = none ∧
          stat0 = Metrics.init_runstat c3kw (c3loss c3f [] [] "force"))) ∧
      lookupD c3res.1.running_stats "force" = some statsOut ∧
      lookupD statsOut "rmse" = some
        { stat0 with calls := stat0.calls ++
            [(if stat0.dim = [] ∧ ¬(PVal.b false).truthy
              then (c3loss c3f [] [] "force").flatten
              else c3loss c3f [] [] "force",
              if (PVal.b false).truthy then lookupD ([] : Dict) SPECIES_INDEX_KEY
              else none)] } ∧
      (lookupD ([] : DictT RunningStats) "rmse" = none → lookupD c3kw "dim" = none →
        lookupD c3kw "reduce_dims" = none →
        stat0.dim = (c3loss c3f [] [] "force").shape.drop 1) :=
  metrics_call_lazy_init_and_accumulate c3m c3res.1 c3loss [] [] c3res.2 rfl
    (by decide) "force" c3f (by decide) c3kws rfl (by decide) "rmse" c3kw
    (by decide) [] rfl [("rmse", PVal.b false)] rfl (PVal.b false) rfl

theorem exceptMapM_ok_length_get {α β : Type} (f : α → Except MetricsError β)
    (l : List α) (out : List β) (h : l.mapM f = .ok out) :
    out.length = l.length ∧
      ∀ i (hi : i < l.length) (hi' : i < out.length),
        f (l.get ⟨i, hi⟩) = .ok (out.get ⟨i, hi'⟩) := by
  induction l generalizing out with
  | nil =>
    simp only [List.mapM_nil, pure, Except.pure] at h
    obtain rfl := Except.ok.inj h
    exact ⟨rfl, fun i hi _ => absurd hi (by simp)⟩
  | cons a l' ih =>
    rw [List.mapM_cons] at h
    cases hfa : f a with
    | error e => rw [hfa] at h; simp [Except.bind, bind, Except.map] at h
    | ok b =>
      rw [hfa] at h
      cases hrest : l'.mapM f with
      | error e => rw [hrest] at h; simp [Except.bind, bind, Except.map, pure] at h
      | ok bs =>
        rw [hrest] at h
        have hout : out = b :: bs := by
          simpa [Except.bind, bind, Except.map, pure, Except.pure] using h.symm
        subst hout
        obtain ⟨hlen, hget⟩ := ih _ hrest
        refine ⟨by simp [hlen], ?_⟩
        intro i hi hi'
        match i with
        | 0 => simpa using hfa
        | Nat.succ j =>
          simpa using hget j (by simpa using hi) (by simpa using hi')

theorem exceptMapM_ok_mem {α β : Type} (f : α → Except MetricsError β)
    (l : List α) (out : List β) (h : l.mapM f = .ok out) :
    ∀ b ∈ out, ∃ a ∈ l, f a = .ok b := by
  induction l generalizing out with
  | nil =>
    simp only [List.mapM_nil, pure, Except.pure] at h
    obtain rfl := Except.ok.inj h
    intro b hb
    cases hb
  | cons a l' ih =>
    rw [List.mapM_cons] at h
    cases hfa : f a with
    | error e => rw [hfa] at h; simp [Except.bind, bind, Except.map] at h
    | ok b0 =>
      rw [hfa] at h
      cases hrest : l'.mapM f with
      | error e => rw [hrest] at h; simp [Except.bind, bind, Except.map, pure] at h
      | ok bs =>
        rw [hrest] at h
        have hout : out = b0 :: bs := by
          simpa [Except.bind, bind, Except.map, pure, Except.pure] using h.symm
        subst hout
        intro b hb
        rcases List.mem_cons.mp hb with hb | hb
        · exact ⟨a, List.mem_cons_self _ _, hb ▸ hfa⟩
        · obtain ⟨a', ha', hfa'⟩ := ih _ hrest b hb
          exact ⟨a', List.mem_cons_of_mem _ ha', hfa'⟩

theorem perSpeciesScalarEntries_names (item : String) (names : List String)
    (value : Tensor) (entries : List (String × ℚ))
    (h : perSpeciesScalarEntries item names value = .ok entries) :
    entries.length = value.rows.length ∧
      ∀ i (hi : i < entries.length) (hi' : i < names.length),
        (entries.get ⟨i, hi⟩).1 = names.get ⟨i, hi'⟩ ++ "_" ++ item := by
  rw [perSpeciesScalarEntries] at h
  obtain ⟨hlen, hget⟩ := exceptMapM_ok_length_get _ _ _ h
  have hlen' : entries.length = value.rows.length := by
    rw [hlen, List.enum_length]
  refine ⟨hlen', ?_⟩
  intro i hi hi'
  have hiE : i < value.rows.enum.length := by rwa [← hlen]
  have this := hget i hiE hi
  have hiR : i < value.rows.length := by rwa [List.enum_length] at hiE
  have henum : value.rows.enum.get ⟨i, hiE⟩ = (i, value.rows.get ⟨i, hiR⟩) := by
    simp [List.getElem_enum]
  rw [henum, perSpeciesScalarEntry] at this
  have hname : names.get? i = some (names.get ⟨i, hi'⟩) := List.get?_eq_get hi'
  rw [hname] at this
  cases hit : (value.rows.get ⟨i, hiR⟩).item with
  | error e => rw [hit] at this; simp [Except.bind] at this
  | ok v =>
    rw [hit] at this
    have h2 : (Except.ok (names.get ⟨i, hi'⟩ ++ "_" ++ item, v) :
        Except MetricsError (String × ℚ)) = Except.ok (entries.get ⟨i, hi⟩) := by
      simpa [Except.bind] using this
    rw [← Except.ok.inj h2]

theorem perSpeciesVectorEntries_names (item : String) (names : List String)
    (value : Tensor) (entries : List (String × ℚ))
    (h : perSpeciesVectorEntries item names value = .ok entries) :
    ∀ p ∈ entries, ∃ (i j : ℕ) (hi : i < names.length),
      p.1 = names.get ⟨i, hi⟩ ++ "_" ++ item ++ "_" ++ toString j := by
  rw [perSpeciesVectorEntries] at h
  cases hll : value.rows.enum.mapM (perSpeciesVectorRow item names) with
  | error e => rw [hll] at h; exact Except.noConfusion h
  | ok ll =>
    rw [hll] at h
    obtain rfl := Except.ok.inj h
    intro p hp
    obtain ⟨l', hl', hpl'⟩ := List.mem_flatten.mp hp
    obtain ⟨⟨i, row⟩, hrow, hfl'⟩ := exceptMapM_ok_mem _ _ _ hll l' hl'
    rw [perSpeciesVectorRow] at hfl'
    cases hname : names.get? i with
    | none => rw [hname] at hfl'; exact Except.noConfusion hfl'
    | some ele =>
      rw [hname] at hfl'
      obtain ⟨⟨j, cell⟩, hcell, hq⟩ := exceptMapM_ok_mem _ _ _ hfl' p hpl'
      cases hit : cell.item with
      | error e => rw [hit] at hq; simp [Except.bind] at hq
      | ok v =>
        rw [hit] at hq
        have h2 : (Except.ok (ele ++ "_" ++ item ++ "_" ++ toString j, v) :
            Except MetricsError (String × ℚ)) = Except.ok p := by
          simpa [Except.bind] using hq
        obtain ⟨hi, hget⟩ := List.get?_eq_some.mp hname
        exact ⟨i, j, hi, by rw [← Except.ok.inj h2, ← hget]⟩

/-- C5 (amended): with per-species grouping active and species labels
supplied, `flatten_metrics` emits one entry per species named
`"{label}_{abbreviated_key}_{reduction}"` when the statistic's declared
output shape is scalar, together with the synthesized
`"all_{abbreviated_key}_{reduction}"` aggregate; when the statistic is
non-scalar it emits one entry per species and component named
`"{label}_{abbreviated_key}_{reduction}_{idx}"` (recorded in `skip_keys`)
and NO `all_` aggregate entry — the original claim asserted the aggregate
unconditionally, which the counterexample refutes. -/
theorem metrics_flatten_per_species_naming
    (m : Metrics) (key reduction : String) (value : Tensor)
    (labels : List String) (stat : RunningStats) (psv : PVal)
    (flat : List (String × ℚ)) (skip : List String)
    (hstat : (lookupD m.running_stats key).bind (fun s => lookupD s reduction) = some stat)
    (hps : (lookupD m.per_species key).bind (fun s => lookupD s reduction) = some psv)
    (htruthy : psv.truthy = true)
    (hflat : Metrics.flatten_metrics m [((key, reduction), value)] (some labels) =
      .ok (flat, skip)) :
    (stat.output_dim = [] →
      ∃ entries, perSpeciesScalarEntries (itemName key reduction) labels value =
          .ok entries ∧
        flat = insertD (entries.foldl (fun d p => insertD d p.1 p.2) [])
          ("all_" ++ itemName key reduction) value.meanAll ∧
        skip = [] ∧
        lookupD flat ("all_" ++ itemName key reduction) = some value.meanAll ∧
        entries.length = value.rows.length ∧
        (∀ i (hi : i < entries.length) (hi' : i < labels.length),
          (entries.get ⟨i, hi⟩).1 = labels.get ⟨i, hi'⟩ ++ "_" ++ itemName key reduction) ∧
        (("all_" ++ itemName key reduction) ∉ entries.map Prod.fst →
          (entries.map Prod.fst).Nodup →
          ∀ p ∈ entries, lookupD flat p.1 = some p.2)) ∧
    (stat.output_dim ≠ [] →
      ∃ entries, perSpeciesVectorEntries (itemName key reduction) labels value =
          .ok entries ∧
        flat = entries.foldl (fun d p => insertD d p.1 p.2) [] ∧
        skip = entries.map Prod.fst ∧
        (∀ p ∈ entries, ∃ (i j : ℕ) (hi : i < labels.length),
          p.1 = labels.get ⟨i, hi⟩ ++ "_" ++ itemName key reduction ++ "_" ++ toString j) ∧
        (("all_" ++ itemName key reduction) ∉ entries.map Prod.fst →
          lookupD flat ("all_" ++ itemName key reduction) = none) ∧
        ((entries.map Prod.fst).Nodup → ∀ p ∈ entries, lookupD flat p.1 = some p.2)) := by
  rw [Metrics.flatten_metrics] at hflat
  simp only [List.foldlM_cons, List.foldlM_nil] at hflat
  cases hstep : Metrics.flattenStep m (some labels) ([], []) ((key, reduction), value) with
  | error e =>
    rw [hstep] at hflat
    simp [Except.bind, bind, pure, Except.pure] at hflat
  | ok acc1 =>
    rw [hstep] at hflat
    have hacc : acc1 = (flat, skip) := by
      simpa [Except.bind, bind, pure, Except.pure] using hflat
    subst hacc
    simp only [Metrics.flattenStep, hstat, hps, htruthy, if_true] at hstep
    cases hshape : value.shape with
    | nil =>
      rw [hshape] at hstep
      exact Except.noConfusion hstep
    | cons n tail =>
      rw [hshape] at hstep
      simp only at hstep
      by_cases houtd : stat.output_dim = []
      · rw [if_pos houtd] at hstep
        cases hentries : perSpeciesScalarEntries (itemName key reduction) labels value with
        | error e => rw [hentries] at hstep; exact Except.noConfusion hstep
        | ok entries =>
          rw [hentries] at hstep
          have hpair := Except.ok.inj hstep
          have hflatX : insertD (entries.foldl (fun d p => insertD d p.1 p.2) [])
              ("all_" ++ itemName key reduction) value.meanAll = flat :=
            congrArg Prod.fst hpair
          have hskipY : ([] : List String) = skip := congrArg Prod.snd hpair
          refine ⟨fun _ => ⟨entries, rfl, hflatX.symm, hskipY.symm, ?_, ?_, ?_, ?_⟩,
            fun hcontr => absurd houtd hcontr⟩
          · rw [← hflatX, lookupD_insertD_self]
          · exact (perSpeciesScalarEntries_names _ _ _ _ hentries).1
          · exact (perSpeciesScalarEntries_names _ _ _ _ hentries).2
          · intro hnall hnd p hp
            have hne : ("all_" ++ itemName key reduction) ≠ p.1 := by
              intro he
              exact hnall (he ▸ List.mem_map.mpr ⟨p, hp, rfl⟩)
            rw [← hflatX, lookupD_insertD_ne _ _ _ _ hne]
            exact foldl_insertD_lookup_mem entries [] hnd p hp
      · rw [if_neg houtd] at hstep
        cases hentries : perSpeciesVectorEntries (itemName key reduction) labels value with
        | error e => rw [hentries] at hstep; exact Except.noConfusion hstep
        | ok entries =>
          rw [hentries] at hstep
          have hpair := Except.ok.inj hstep
          have hflatX : entries.foldl (fun d p => insertD d p.1 p.2) [] = flat :=
            congrArg Prod.fst hpair
          have hskipY : entries.map Prod.fst = skip := by
            have := congrArg Prod.snd hpair
            simpa using this
          refine ⟨fun hcontr => absurd hcontr houtd,
            fun _ => ⟨entries, rfl, hflatX.symm, hskipY.symm, ?_, ?_, ?_⟩⟩
          · exact perSpeciesVectorEntries_names _ _ _ _ hentries
          · intro hnall
            rw [← hflatX, foldl_insertD_lookup_notin _ _ _ hnall]
            rfl
          · intro hnd p hp
            rw [← hflatX]
            exact foldl_insertD_lookup_mem entries [] hnd p hp

/-- Concrete objects for the per-species counterexample and witness: one
`("force", "rmse")` component with `PerSpecies` and `report_per_component`
set, fed a 2-atom, 3-component error batch. -/
def c5cs : List Component :=
  [.tup [.key "force", .key "rmse",
    .opts [("PerSpecies", .b true), ("report_per_component", .b true)]]]

def c5m : Metrics :=
  (Metrics.init c5cs).toOption.getD
    { running_stats := [], per_species := [], funcs := [], kwargs := [] }

def c5err : Tensor := { shape := [2, 3], vals := [1, 0, 0, 0, 2, 0], requiresGrad := false }

def c5loss : LossEval := fun _ _ _ _ => c5err

def c5pred : Dict :=
  [(SPECIES_INDEX_KEY, { shape := [2], vals := [0, 1], requiresGrad := false })]

def c5res : Metrics × List ((String × String) × Agg) :=
  (c5m.call c5loss c5pred []).toOption.getD (c5m, [])

def c5value : Tensor := { shape := [2, 3], vals := [1, 4, 9, 16, 25, 36], requiresGrad := false }

def c5flatres : List (String × ℚ) × List String :=
  (Metrics.flatten_metrics c5res.1 [(("force", "rmse"), c5value)] none).toOption.getD ([], [])

/-- C5 (counterexample): with per-species grouping active and a non-scalar
(per-component) statistic, `flatten_metrics` emits the per-species
per-component entries but NO `"all_{abbreviated_key}_{reduction}"`
aggregate entry — the claimed synthesized aggregate is absent. -/
theorem metrics_flatten_all_entry_counterexample :
    Metrics.init c5cs = .ok c5m ∧
    c5m.call c5loss c5pred [] = .ok (c5res.1, c5res.2) ∧
    Metrics.flatten_metrics c5res.1 [(("force", "rmse"), c5value)] none =
      .ok (c5flatres.1, c5flatres.2) ∧
    lookupD c5flatres.1 "0_f_rmse_0" = some 1 ∧
    lookupD c5flatres.1 "1_f_rmse_2" = some 36 ∧
    lookupD c5flatres.1 "all_f_rmse" = none := by
  refine ⟨rfl, rfl, rfl, by decide, by decide, by decide⟩

def c5labels : List String := ["H", "O"]

def c5flatresW : List (String × ℚ) × List String :=
  (Metrics.flatten_metrics c5res.1 [(("force", "rmse"), c5value)]
    (some c5labels)).toOption.getD ([], [])

def c5stat : RunningStats :=
  ((lookupD c5res.1.running_stats "force").bind (fun s => lookupD s "rmse")).getD
    (RunningStats.ofKwargs [])

def c5entries : List (String × ℚ) :=
  (perSpeciesVectorEntries (itemName "force" "rmse") c5labels c5value).toOption.getD []

theorem metrics_flatten_per_species_naming_witness :
    lookupD c5flatresW.1 ("all_" ++ itemName "force" "rmse") = none ∧
    lookupD c5flatresW.1 "H_f_rmse_0" = some 1 := by
  have h := metrics_flatten_per_species_naming c5res.1 "force" "rmse" c5value
    c5labels c5stat (PVal.b true) c5flatresW.1 c5flatresW.2
    rfl rfl rfl rfl
  obtain ⟨-, h2⟩ := h
  obtain ⟨entries, hent, -, -, -, hall, hlook⟩ := h2 (by decide)
  have he : entries = c5entries := by
    have h0 : perSpeciesVectorEntries (itemName "force" "rmse") c5labels c5value =
        .ok c5entries := rfl
    rw [h0] at hent
    exact (Except.ok.inj hent).symm
  subst he
  refine ⟨hall (by decide), ?_⟩
  have := hlook (by decide) ("H_f_rmse_0", 1) (by decide)
  exact this

end NequipSpec
